import Mathlib

/-!
# go-stbi: header parsers of the `bmp` and `jpeg` packages

A shallow embedding of `bmp.DecodeConfig` (src/bmp/bmp.go) and
`jpeg.DecodeConfig` (src/jpeg/jpeg.go) over a reader that is backed by a finite
byte sequence, of `stbi.LoadMemory` and `stbi.LoadReader` (src/stbi.go) over a
native decoder that is a parameter, and of the format registry the two packages
register with.  The state of the reader is the list of bytes it has not handed
out yet; every operation returns the reader state it leaves behind, so the
number of bytes a call consumed is the length of the input minus the length of
that remainder.

Go's `int` is taken to be the 64-bit two's complement integer of the 64-bit
targets; the only arithmetic on it is the negation of a negative height.
-/

namespace stbi

/-- One byte of the input. -/
abbrev Byte := Fin 256

/-- The error values the two header parsers can return. -/
inductive Error
  /-- The value io.EOF: a read found no byte at all. -/
  | EOF
  /-- The value io.ErrUnexpectedEOF: a read found some bytes, but too few. -/
  | ErrUnexpectedEOF
  /-- The variable ErrInvalid of package bmp, errors.New("Invalid BMP"). -/
  | InvalidBMP
  /-- The variable ErrInvalid of package jpeg, errors.New("Invalid JPEG"). -/
  | InvalidJPEG
  deriving DecidableEq, Repr

/-- The value of the interface color.Model held by an image.Config. -/
inductive Model
  /-- The zero value of the interface. -/
  | nil
  /-- The value color.RGBAModel. -/
  | RGBAModel
  deriving DecidableEq, Repr

/-- The struct image.Config; Width and Height are Go ints. -/
structure Config where
  ColorModel : Model
  Width : Int
  Height : Int
  deriving DecidableEq, Repr

/-- What a call of DecodeConfig hands back: the pair (cfg, err), where err = none
is the nil error, together with the bytes of the reader that were not consumed. -/
structure Result where
  cfg : Config
  err : Option Error
  rest : List Byte
  deriving DecidableEq, Repr

/-- The two ways a Go call can end: it returns, or a run-time panic unwinds it. -/
inductive Outcome
  | ret (res : Result)
  | panic
  deriving DecidableEq, Repr

/-- Reduction of an integer to the range of a 64-bit two's complement int. -/
def wrapInt (x : Int) : Int := (x + 2 ^ 63) % 2 ^ 64 - 2 ^ 63

/-- Unary minus on a Go int. -/
def negInt (x : Int) : Int := wrapInt (-x)

/-- The conversion int32(u) of an unsigned 32-bit pattern. -/
def toInt32 (u : Nat) : Int := if u < 2 ^ 31 then (u : Int) else (u : Int) - 2 ^ 32

/-- The byte at index i of a buffer as a number (0 outside the buffer). -/
def byteAt (b : List Byte) (i : Nat) : Nat := (b.getD i 0).val

/-- binary.LittleEndian.Uint16 on b[off:]. -/
def leUint16 (b : List Byte) (off : Nat) : Nat :=
  byteAt b off + byteAt b (off + 1) * 2 ^ 8

/-- binary.LittleEndian.Uint32 on b[off:]. -/
def leUint32 (b : List Byte) (off : Nat) : Nat :=
  byteAt b off + byteAt b (off + 1) * 2 ^ 8 + byteAt b (off + 2) * 2 ^ 16
    + byteAt b (off + 3) * 2 ^ 24

/-- binary.BigEndian.Uint16 on b[off:]. -/
def beUint16 (b : List Byte) (off : Nat) : Nat :=
  byteAt b off * 2 ^ 8 + byteAt b (off + 1)

/-- io.ReadFull asking for n bytes of the reader r: the n bytes and the reader
behind them when r still holds n bytes; otherwise the reader is drained and the
error is io.EOF when it held nothing, io.ErrUnexpectedEOF when it held too few.
A request for 0 bytes succeeds on every reader. -/
def readFull (n : Nat) (r : List Byte) : Except Error (List Byte) × List Byte :=
  if n ≤ r.length then (.ok (r.take n), r.drop n)
  else if r.length = 0 then (.error .EOF, [])
  else (.error .ErrUnexpectedEOF, [])

/-- The call err = binary.Read(r, order, &data) for data of encoded size
size: on success data is overwritten with the decoded bytes, on failure it is
left as it was.  Returns data, err and the reader after the call. -/
def binaryRead {α : Type} (size : Nat) (decode : List Byte → α) (data : α)
    (r : List Byte) : α × Option Error × List Byte :=
  match readFull size r with
  | (.ok bs, r1) => (decode bs, none, r1)
  | (.error e, r1) => (data, some e, r1)

/-- The composite literal image.Config{ColorModel: color.RGBAModel}. -/
def initCfg : Config := { ColorModel := .RGBAModel, Width := 0, Height := 0 }

/-! ## Package bmp -/

namespace bmp

/-- Header is the magic string at the start of a BMP file, "BM". -/
def Header : List Byte := [0x42, 0x4D]

/-- ErrInvalid is returned from DecodeConfig for non BMP files. -/
def ErrInvalid : Error := .InvalidBMP

/-- The struct bmpHeader, 18 bytes when encoded. -/
structure bmpHeader where
  Magic : List Byte
  FileSize : Nat
  Reserved1 : Nat
  Reserved2 : Nat
  DataOffset : Nat
  DIBSize : Nat
  deriving DecidableEq, Repr

/-- The zero value of bmpHeader. -/
def bmpHeader.zero : bmpHeader :=
  { Magic := [0, 0], FileSize := 0, Reserved1 := 0, Reserved2 := 0, DataOffset := 0,
    DIBSize := 0 }

/-- Little-endian decoding of the 18 bytes of a bmpHeader, field by field. -/
def bmpHeader.decode (b : List Byte) : bmpHeader :=
  { Magic := b.take 2, FileSize := leUint32 b 2, Reserved1 := leUint16 b 6,
    Reserved2 := leUint16 b 8, DataOffset := leUint32 b 10, DIBSize := leUint32 b 14 }

/-- Decoding of struct{ X, Y uint16 }, converted to int. -/
def decodeDim16 (b : List Byte) : Int × Int :=
  ((leUint16 b 0 : Nat), (leUint16 b 2 : Nat))

/-- Decoding of struct{ X, Y int32 }, converted to int. -/
def decodeDim32 (b : List Byte) : Int × Int :=
  (toInt32 (leUint32 b 0), toInt32 (leUint32 b 4))

/-- The switch on h.DIBSize of DecodeConfig: cfg, err and the reader after it.
In the two cases that read, cfg.Width and cfg.Height are assigned from dim also
when the read failed (dim is then still zero). -/
def dimSwitch (cfg : Config) (DIBSize : Nat) (r : List Byte) :
    Config × Option Error × List Byte :=
  if DIBSize = 12 then
    match binaryRead 4 decodeDim16 (0, 0) r with
    | (dim, err, r1) => ({ cfg with Width := dim.1, Height := dim.2 }, err, r1)
  else if DIBSize = 40 ∨ DIBSize = 56 ∨ DIBSize = 108 ∨ DIBSize = 124 then
    match binaryRead 8 decodeDim32 (0, 0) r with
    | (dim, err, r1) => ({ cfg with Width := dim.1, Height := dim.2 }, err, r1)
  else
    (cfg, some ErrInvalid, r)

/-- DecodeConfig returns the dimensions and an RGBA color model of the BMP
backed by reader. -/
def DecodeConfig (r : List Byte) : Result :=
  let cfg := initCfg
  match binaryRead 18 bmpHeader.decode bmpHeader.zero r with
  | (_, some err, r1) => { cfg := cfg, err := some err, rest := r1 }
  | (h, none, r1) =>
    if h.Magic ≠ Header then { cfg := cfg, err := some ErrInvalid, rest := r1 }
    else
      match dimSwitch cfg h.DIBSize r1 with
      | (cfg, err, r2) =>
        -- Negative height means the pixel order is reversed but we want the magnitude
        let cfg := if cfg.Height < 0 then { cfg with Height := negInt cfg.Height } else cfg
        { cfg := cfg, err := err, rest := r2 }

end bmp

/-! ## Package jpeg -/

namespace jpeg

/-- Header is the magic string at the start of a JPEG file, "\xff\xd8". -/
def Header : List Byte := [0xff, 0xd8]

/-- ErrInvalid is returned from DecodeConfig for non JPEG files. -/
def ErrInvalid : Error := .InvalidJPEG

/-- The struct segmentHeader, 4 bytes when encoded. -/
structure segmentHeader where
  Sentinel : Nat
  Marker : Nat
  Length : Nat
  deriving DecidableEq, Repr

/-- The zero value of segmentHeader. -/
def segmentHeader.zero : segmentHeader := { Sentinel := 0, Marker := 0, Length := 0 }

/-- Big-endian decoding of the 4 bytes of a segmentHeader. -/
def segmentHeader.decode (b : List Byte) : segmentHeader :=
  { Sentinel := byteAt b 0, Marker := byteAt b 1, Length := beUint16 b 2 }

/-- Decoding of struct{ _ byte; H, W uint16 } (5 bytes, the first skipped) as the
pair (H, W). -/
def decodeDim (b : List Byte) : Nat × Nat := (beUint16 b 1, beUint16 b 3)

/-- What one pass through the body of the for loop does. -/
inductive Step
  /-- The pass reached the end of the body: the loop goes round again, with this
  length of buf and this reader. -/
  | next (bufLen : Nat) (r : List Byte)
  /-- The pass left the function, by a return, by a break (the statement after
  the loop is return cfg, err) or by a panic. -/
  | done (o : Outcome)
  deriving DecidableEq, Repr

/-- One pass through the body of the for loop of DecodeConfig, started with a
buf of length (and capacity) bufLen and the reader r. -/
def iteration (cfg : Config) (bufLen : Nat) (r : List Byte) : Step :=
  match binaryRead 4 segmentHeader.decode segmentHeader.zero r with
  | (_, some err, r1) => .done (.ret { cfg := cfg, err := some err, rest := r1 })
  | (h, none, r1) =>
    if h.Sentinel ≠ 0xff then .done (.ret { cfg := cfg, err := some ErrInvalid, rest := r1 })
    else if h.Marker = 0xc0 ∨ h.Marker = 0xc1 ∨ h.Marker = 0xc2 then
      match binaryRead 5 decodeDim (0, 0) r1 with
      | (dim, err, r2) =>
        .done (.ret { cfg := { cfg with Width := (dim.2 : Nat), Height := (dim.1 : Nat) },
                      err := err, rest := r2 })
    else
      let bufLen := if bufLen < h.Length then h.Length else bufLen
      -- the slice expression buf[:int(h.Length)-2]
      if h.Length < 2 ∨ bufLen < h.Length - 2 then .done .panic
      else
        match binaryRead (h.Length - 2) (fun _ => ()) () r1 with
        | (_, some err, r2) => .done (.ret { cfg := cfg, err := some err, rest := r2 })
        | (_, none, r2) => .next bufLen r2

/-- The for loop of DecodeConfig, cut off after fuel passes (none: cut off). -/
def loop : Nat → Config → Nat → List Byte → Option Outcome
  | 0, _, _, _ => none
  | fuel + 1, cfg, bufLen, r =>
    match iteration cfg bufLen r with
    | .done o => some o
    | .next bufLen1 r1 => loop fuel cfg bufLen1 r1

/-- DecodeConfig returns the dimensions and an RGBA color model of the JPEG
backed by reader.  The loop is given one pass for every 4 bytes that follow
the magic, and one more. -/
def DecodeConfig (r : List Byte) : Option Outcome :=
  let cfg := initCfg
  match binaryRead 2 id [0, 0] r with
  | (_, some err, r1) => some (.ret { cfg := cfg, err := some err, rest := r1 })
  | (magic, none, r1) =>
    if magic ≠ Header then some (.ret { cfg := cfg, err := some ErrInvalid, rest := r1 })
    else loop (r1.length / 4 + 1) cfg 0 r1

end jpeg

/-! ## Streams of the shapes the specification talks about -/

/-- The byte with value n mod 256. -/
def toByte (n : Nat) : Byte := ⟨n % 256, Nat.mod_lt n (by decide)⟩

/-- The two bytes of a big-endian 16-bit number. -/
def u16be (n : Nat) : List Byte := [toByte (n / 2 ^ 8), toByte n]

/-- The two bytes of a little-endian 16-bit number. -/
def u16le (n : Nat) : List Byte := [toByte n, toByte (n / 2 ^ 8)]

/-- The four bytes of a little-endian unsigned 32-bit number. -/
def u32le (n : Nat) : List Byte :=
  [toByte n, toByte (n / 2 ^ 8), toByte (n / 2 ^ 16), toByte (n / 2 ^ 24)]

/-- The four bytes of a little-endian signed 32-bit number (two's complement). -/
def i32le (x : Int) : List Byte := u32le (x % 2 ^ 32).toNat

/-- A segment of a JPEG stream that is not a start of frame: its marker code and
its payload.  The declared length is the length of the payload plus 2. -/
structure Segment where
  marker : Byte
  payload : List Byte
  deriving DecidableEq, Repr

/-- The declared length L of a segment. -/
def Segment.declared (sg : Segment) : Nat := sg.payload.length + 2

/-- The marker code is none of C0, C1, C2 and the declared length fits 16 bits. -/
def Segment.Skipped (sg : Segment) : Prop :=
  sg.marker.val ≠ 0xc0 ∧ sg.marker.val ≠ 0xc1 ∧ sg.marker.val ≠ 0xc2 ∧ sg.declared ≤ 65535

instance (sg : Segment) : Decidable sg.Skipped := by
  unfold Segment.Skipped; exact inferInstance

/-- The bytes of a segment: FF, the marker code, the declared length, the payload. -/
def Segment.encode (sg : Segment) : List Byte :=
  0xff :: sg.marker :: (u16be sg.declared ++ sg.payload)

/-- The bytes of a run of segments. -/
def encodeSegments : List Segment → List Byte
  | [] => []
  | sg :: segs => sg.encode ++ encodeSegments segs

/-- The marker code is one of the three start-of-frame codes. -/
def IsSOF (m : Byte) : Prop := m.val = 0xc0 ∨ m.val = 0xc1 ∨ m.val = 0xc2

instance (m : Byte) : Decidable (IsSOF m) := by
  unfold IsSOF; exact inferInstance

/-- The statement if cfg.Height < 0 { cfg.Height = -cfg.Height } of bmp.DecodeConfig
as a function of the height. -/
def bmp.magnitude (x : Int) : Int := if x < 0 then negInt x else x

/-- The error of a read that comes up short on the reader r. -/
def shortErr (r : List Byte) : Error := if r.length = 0 then .EOF else .ErrUnexpectedEOF

/-! ## Package stbi: the full decode

The native decoder stbi_load_from_memory of stb_image.h is C code outside the
repository; it is a parameter of the model. -/

/-- Reduction of an integer to the range of the 32-bit C.int. -/
def wrapCInt (x : Int) : Int := (x + 2 ^ 31) % 2 ^ 32 - 2 ^ 31

/-- The struct image.Point. -/
structure Point where
  X : Int
  Y : Int
  deriving DecidableEq, Repr

/-- The struct image.Rectangle. -/
structure Rectangle where
  Min : Point
  Max : Point
  deriving DecidableEq, Repr

/-- The function image.Rect: the rectangle with the given corners, the corners
swapped where they are out of order. -/
def Rect (x0 y0 x1 y1 : Int) : Rectangle :=
  let (x0, x1) := if x0 > x1 then (x1, x0) else (x0, x1)
  let (y0, y1) := if y0 > y1 then (y1, y0) else (y0, y1)
  { Min := { X := x0, Y := y0 }, Max := { X := x1, Y := y1 } }

/-- The struct image.RGBA. -/
structure RGBA where
  Pix : List Byte
  Stride : Int
  Rect : Rectangle
  deriving DecidableEq, Repr

/-- What a successful call of the native decoder leaves behind: the C ints x and
y, the number of channels in the file (stored through the comp pointer when that
is not NULL) and the memory behind the pointer it returns. -/
structure Decoded where
  x : Int
  y : Int
  comp : Int
  data : Nat → Byte

/-- The native decoder as a function of the input bytes and of the number of
desired channels: the failure reason when it returns NULL, else what it decoded. -/
abbrev NativeDecoder := List Byte → Int → Except String Decoded

/-- How a call of one of the Load functions ends: it returns the pair
(image, err), with none for nil, or it panics. -/
inductive LoadOutcome
  | ret (img : Option RGBA) (err : Option String)
  | panic
  deriving DecidableEq, Repr

/-- The function C.GoBytes(p, n): a copy of the n bytes behind p; it panics on a
negative n (none). -/
def GoBytes (data : Nat → Byte) (n : Int) : Option (List Byte) :=
  if n < 0 then none else some ((List.range n.toNat).map data)

/-- LoadMemory wraps stbi_load_from_memory to decode an image into an RGBA
pixel struct.  The pointer channelsInFile is none for nil, else the value of the
variable it points to. -/
def LoadMemory (native : NativeDecoder) (b : List Byte) (channelsInFile : Option Int)
    (desiredChannels : Int) : LoadOutcome :=
  match b with
  -- the expression &b[0] on an empty slice: index out of range
  | [] => .panic
  | _ :: _ =>
    match native b desiredChannels with
    | .error msg => .ret none (some msg)
    | .ok d =>
      match channelsInFile with
      -- the expression *channelsInFile on a nil pointer
      | none => .panic
      | some _ =>
        match GoBytes d.data (wrapCInt (wrapCInt (d.y * d.x) * d.comp)) with
        | none => .panic
        | some pix => .ret (some { Pix := pix, Stride := 4, Rect := Rect 0 0 d.x d.y }) none

/-- LoadReader on a reader that is not an *os.File and hands out the bytes b: the
type assertion fails, ioutil.ReadAll returns b and a nil error, and the call
delegates to LoadMemory.  (The branch for an *os.File, LoadFile, is not modelled.) -/
def LoadReader (native : NativeDecoder) (b : List Byte) (channelsInFile : Option Int)
    (desiredChannels : Int) : LoadOutcome :=
  LoadMemory native b channelsInFile desiredChannels

/-- Decode reads a BMP image from r and returns an image.RGBA. -/
def bmp.Decode (native : NativeDecoder) (r : List Byte) : LoadOutcome :=
  LoadReader native r none 4

/-! ## The format registry -/

namespace registry

/-- Modelled from the spec: a FormatEntry of the FormatRegistry (spec section 3),
which is the registry of Go's standard package image and not code of the
repository.  The full-decode function of an entry is left out. -/
structure FormatEntry where
  Name : String
  MagicPrefix : List Byte
  ConfigParseFn : List Byte → Option Outcome

/-- Modelled from the spec: the two errors of Sniff (spec sections 4.1 and 7). -/
inductive SniffError
  | ErrUnrecognizedFormat
  | ErrTruncatedInput
  deriving DecidableEq, Repr

/-- Modelled from the spec: Register appends an entry (spec section 4.1). -/
def Register (reg : List FormatEntry) (e : FormatEntry) : List FormatEntry := reg ++ [e]

/-- Modelled from the spec: the entry matches when its magic is byte for byte the
start of the stream. -/
def hasMagic (e : FormatEntry) (s : List Byte) : Bool :=
  decide (s.take e.MagicPrefix.length = e.MagicPrefix)

/-- Modelled from the spec: Sniff (spec section 4.1) peeks at the start of the
stream, without consuming it, and returns the first entry in registration order
whose magic matches; it fails with ErrUnrecognizedFormat if no entry matches, or
with ErrTruncatedInput if the stream ends before there are enough bytes for any
of the comparisons. -/
def Sniff (reg : List FormatEntry) (s : List Byte) : Except SniffError FormatEntry :=
  match reg.find? (fun e => hasMagic e s) with
  | some e => .ok e
  | none =>
    if !reg.isEmpty && reg.all (fun e => decide (s.length < e.MagicPrefix.length)) then
      .error .ErrTruncatedInput
    else .error .ErrUnrecognizedFormat

/-- Modelled from the spec: DecodeConfig of the registry delegates to the
config-parse function of the sniffed entry, on the stream from its start. -/
def DecodeConfig (reg : List FormatEntry) (s : List Byte) :
    Except SniffError (Option Outcome) :=
  match Sniff reg s with
  | .ok e => .ok (e.ConfigParseFn s)
  | .error err => .error err

/-- The entry func init() of package bmp registers:
image.RegisterFormat("bmp", Header, Decode, DecodeConfig). -/
def bmpEntry : FormatEntry :=
  { Name := "bmp", MagicPrefix := bmp.Header,
    ConfigParseFn := fun s => some (.ret (bmp.DecodeConfig s)) }

/-- The entry func init() of package jpeg registers:
image.RegisterFormat("jpeg", Header, Decode, DecodeConfig). -/
def jpegEntry : FormatEntry :=
  { Name := "jpeg", MagicPrefix := jpeg.Header, ConfigParseFn := jpeg.DecodeConfig }

end registry

/-! ## Reading from a reader that holds enough bytes -/

theorem readFull_append (a b : List Byte) :
    readFull a.length (a ++ b) = (.ok a, b) := by
  simp [readFull]

theorem binaryRead_append {α : Type} (decode : List Byte → α) (data : α)
    (a b : List Byte) (n : Nat) (hn : a.length = n) :
    binaryRead n decode data (a ++ b) = (decode a, none, b) := by
  subst hn
  simp [binaryRead, readFull_append]

theorem binaryRead_of_le {α : Type} (n : Nat) (decode : List Byte → α) (data : α)
    (r : List Byte) (h : n ≤ r.length) :
    binaryRead n decode data r = (decode (r.take n), none, r.drop n) := by
  simp [binaryRead, readFull, h]

theorem binaryRead_of_lt {α : Type} (n : Nat) (decode : List Byte → α) (data : α)
    (r : List Byte) (h : r.length < n) :
    binaryRead n decode data r = (data, some (shortErr r), []) := by
  have h1 : ¬ n ≤ r.length := by omega
  unfold binaryRead readFull
  rw [if_neg h1]
  by_cases h0 : r.length = 0 <;> simp [h0, shortErr]

theorem byteAt_take (r : List Byte) (n i : Nat) (h : i < n) :
    byteAt (r.take n) i = byteAt r i := by
  unfold byteAt
  congr 1
  simp [List.getD_eq_getElem?_getD, List.getElem?_take, h]

theorem byteAt_drop (r : List Byte) (n i : Nat) :
    byteAt (r.drop n) i = byteAt r (n + i) := by
  unfold byteAt
  congr 1
  simp [List.getD_eq_getElem?_getD, List.getElem?_drop]

theorem byteAt_lt (r : List Byte) (i : Nat) : byteAt r i < 256 := (r.getD i 0).isLt

theorem toByte_val (n : Nat) : (toByte n).val = n % 256 := rfl

/-! ## The loop of jpeg.DecodeConfig -/

namespace jpeg

theorem loop_done (fuel : Nat) (cfg : Config) (bufLen : Nat) (r : List Byte) (o : Outcome)
    (h : iteration cfg bufLen r = .done o) : loop (fuel + 1) cfg bufLen r = some o := by
  simp [loop, h]

theorem loop_next (fuel : Nat) (cfg : Config) (bufLen : Nat) (r : List Byte)
    (bufLen1 : Nat) (r1 : List Byte) (h : iteration cfg bufLen r = .next bufLen1 r1) :
    loop (fuel + 1) cfg bufLen r = loop fuel cfg bufLen1 r1 := by
  simp [loop, h]

/-- A skipped segment costs one pass of the loop and leaves the reader right
behind its payload. -/
theorem iteration_skip (cfg : Config) (bufLen : Nat) (sg : Segment) (hsg : sg.Skipped)
    (t : List Byte) :
    iteration cfg bufLen (sg.encode ++ t)
      = .next (if bufLen < sg.declared then sg.declared else bufLen) t := by
  obtain ⟨h0, h1, h2, hL⟩ := hsg
  have hdec : segmentHeader.decode (0xff :: sg.marker :: u16be sg.declared)
      = { Sentinel := 0xff, Marker := sg.marker.val, Length := sg.declared } := by
    simp [segmentHeader.decode, beUint16, u16be, byteAt, toByte_val]
    omega
  have hread : binaryRead 4 segmentHeader.decode segmentHeader.zero (sg.encode ++ t)
      = ({ Sentinel := 0xff, Marker := sg.marker.val, Length := sg.declared }, none,
          sg.payload ++ t) := by
    have := binaryRead_append segmentHeader.decode segmentHeader.zero
      (0xff :: sg.marker :: u16be sg.declared) (sg.payload ++ t) 4 (by simp [u16be])
    rw [hdec] at this
    simpa [Segment.encode] using this
  have hpay : binaryRead (sg.declared - 2) (fun _ => ()) () (sg.payload ++ t)
      = ((), none, t) :=
    binaryRead_append _ _ _ _ _ (by simp [Segment.declared])
  unfold iteration
  rw [hread]
  simp only [hpay]
  have hL2 : ¬ sg.declared < 2 := by simp [Segment.declared]
  simp [h0, h1, h2, hL2]
  split <;> omega

/-- A start-of-frame segment ends the loop with the dimensions it carries: the
four bytes of the segment header, the precision byte, H and W are consumed. -/
theorem iteration_sof (cfg : Config) (bufLen : Nat) (m l1 l2 p : Byte) (hm : IsSOF m)
    (H W : Nat) (hH : H < 65536) (hW : W < 65536) (t : List Byte) :
    iteration cfg bufLen (0xff :: m :: l1 :: l2 :: p :: (u16be H ++ (u16be W ++ t)))
      = .done (.ret { cfg := { cfg with Width := (W : Nat), Height := (H : Nat) },
                      err := none, rest := t }) := by
  have hread : binaryRead 4 segmentHeader.decode segmentHeader.zero
      (0xff :: m :: l1 :: l2 :: p :: (u16be H ++ (u16be W ++ t)))
      = (segmentHeader.decode [0xff, m, l1, l2], none, p :: (u16be H ++ (u16be W ++ t))) :=
    binaryRead_append segmentHeader.decode segmentHeader.zero [0xff, m, l1, l2] _ 4 rfl
  have hdim : binaryRead 5 decodeDim (0, 0) (p :: (u16be H ++ (u16be W ++ t)))
      = ((H, W), none, t) := by
    have := binaryRead_append decodeDim (0, 0) (p :: (u16be H ++ u16be W)) t 5
      (by simp [u16be])
    have hd : decodeDim (p :: (u16be H ++ u16be W)) = (H, W) := by
      simp [decodeDim, beUint16, u16be, byteAt, toByte_val]
      omega
    rw [hd] at this
    simpa using this
  have hm2 : (segmentHeader.decode [0xff, m, l1, l2]).Marker = m.val := by
    simp [segmentHeader.decode, byteAt]
  have hs : (segmentHeader.decode [0xff, m, l1, l2]).Sentinel = 0xff := rfl
  unfold iteration
  rw [hread]
  simp only [hs, hm2, hdim]
  have hm3 : m.val = 0xc0 ∨ m.val = 0xc1 ∨ m.val = 0xc2 := hm
  simp [hm3]

/-- Fuel only matters until the loop has ended. -/
theorem loop_mono (cfg : Config) (o : Outcome) :
    ∀ (f g bufLen : Nat) (r : List Byte), f ≤ g → loop f cfg bufLen r = some o →
      loop g cfg bufLen r = some o := by
  intro f
  induction f with
  | zero => intro g bufLen r _ h; simp [loop] at h
  | succ f ih =>
    intro g bufLen r hfg h
    obtain ⟨k, rfl⟩ : ∃ k, g = k + 1 := ⟨g - 1, by omega⟩
    cases hit : iteration cfg bufLen r with
    | done o1 =>
      rw [loop_done f cfg bufLen r o1 hit] at h
      rw [loop_done k cfg bufLen r o1 hit]
      exact h
    | next b1 r1 =>
      rw [loop_next f cfg bufLen r b1 r1 hit] at h
      rw [loop_next k cfg bufLen r b1 r1 hit]
      exact ih k b1 r1 (by omega) h

/-- One pass of the loop, read off the bytes of the reader: the header is
r[0..3], the marker r[1], the declared length r[2..3]; a start of frame has its
height in r[5..6] and its width in r[7..8]. -/
theorem iteration_eq (cfg : Config) (bufLen : Nat) (r : List Byte) :
    iteration cfg bufLen r =
      if r.length < 4 then
        .done (.ret { cfg := cfg, err := some (shortErr r), rest := [] })
      else if byteAt r 0 ≠ 0xff then
        .done (.ret { cfg := cfg, err := some ErrInvalid, rest := r.drop 4 })
      else if byteAt r 1 = 0xc0 ∨ byteAt r 1 = 0xc1 ∨ byteAt r 1 = 0xc2 then
        if r.length < 9 then
          .done (.ret { cfg := { cfg with Width := 0, Height := 0 },
                        err := some (shortErr (r.drop 4)), rest := [] })
        else
          .done (.ret { cfg := { cfg with Width := (beUint16 r 7 : Nat),
                                          Height := (beUint16 r 5 : Nat) },
                        err := none, rest := r.drop 9 })
      else if beUint16 r 2 < 2 then .done .panic
      else if r.length < beUint16 r 2 + 2 then
        .done (.ret { cfg := cfg, err := some (shortErr (r.drop 4)), rest := [] })
      else
        .next (if bufLen < beUint16 r 2 then beUint16 r 2 else bufLen)
          (r.drop (beUint16 r 2 + 2)) := by
  unfold iteration
  by_cases h4 : r.length < 4
  · rw [binaryRead_of_lt 4 _ _ r h4]
    simp [h4]
  · rw [binaryRead_of_le 4 _ _ r (by omega)]
    have hS : (segmentHeader.decode (r.take 4)).Sentinel = byteAt r 0 := by
      simp [segmentHeader.decode, byteAt_take]
    have hM : (segmentHeader.decode (r.take 4)).Marker = byteAt r 1 := by
      simp [segmentHeader.decode, byteAt_take]
    have hL : (segmentHeader.decode (r.take 4)).Length = beUint16 r 2 := by
      simp [segmentHeader.decode, beUint16, byteAt_take]
    simp only [hS, hM, hL, h4, if_false]
    by_cases hs : byteAt r 0 = 0xff
    · simp only [hs, ne_eq, not_true_eq_false, if_false]
      by_cases hm : byteAt r 1 = 0xc0 ∨ byteAt r 1 = 0xc1 ∨ byteAt r 1 = 0xc2
      · simp only [hm, if_true]
        by_cases h9 : r.length < 9
        · rw [binaryRead_of_lt 5 _ _ (r.drop 4) (by simp; omega)]
          simp [h9]
        · rw [binaryRead_of_le 5 _ _ (r.drop 4) (by simp; omega)]
          simp [h9, decodeDim, beUint16, byteAt_take, byteAt_drop]
      · simp only [hm, if_false]
        by_cases hp : beUint16 r 2 < 2
        · simp [hp]
        · have hb : ¬ ((if bufLen < beUint16 r 2 then beUint16 r 2 else bufLen)
              < beUint16 r 2 - 2) := by
            split <;> omega
          simp only [hp, hb, or_self, if_false]
          by_cases hl : r.length < beUint16 r 2 + 2
          · rw [binaryRead_of_lt _ _ _ (r.drop 4) (by simp; omega)]
            simp [hl]
          · rw [binaryRead_of_le _ _ _ (r.drop 4) (by simp; omega)]
            simp only [hl, if_false, List.drop_drop]
            congr 2
            omega
    · simp [hs]

/-- A pass that does not leave the function has consumed at least 4 bytes. -/
theorem iteration_next_length (cfg : Config) (bufLen : Nat) (r : List Byte)
    (b1 : Nat) (r1 : List Byte) (h : iteration cfg bufLen r = .next b1 r1) :
    r1.length + 4 ≤ r.length := by
  rw [iteration_eq] at h
  split at h
  · simp at h
  split at h
  · simp at h
  split at h
  · split at h <;> simp at h
  split at h
  · simp at h
  split at h
  · simp at h
  · simp only [Step.next.injEq] at h
    obtain ⟨_, rfl⟩ := h
    simp
    omega

/-- With one pass for every 4 bytes of the reader and one more, the loop ends. -/
theorem loop_total (cfg : Config) :
    ∀ (f bufLen : Nat) (r : List Byte), r.length < 4 * f →
      ∃ o, loop f cfg bufLen r = some o := by
  intro f
  induction f with
  | zero => intro bufLen r h; omega
  | succ f ih =>
    intro bufLen r h
    cases hit : iteration cfg bufLen r with
    | done o => exact ⟨o, loop_done f cfg bufLen r o hit⟩
    | next b1 r1 =>
      have hl := iteration_next_length cfg bufLen r b1 r1 hit
      obtain ⟨o, ho⟩ := ih b1 r1 (by omega)
      exact ⟨o, by rw [loop_next f cfg bufLen r b1 r1 hit]; exact ho⟩

/-- Any fuel that lets the loop end gives the outcome of the loop with the fuel
DecodeConfig hands it. -/
theorem loop_canonical (cfg : Config) (f bufLen : Nat) (r : List Byte) (o : Outcome)
    (h : loop f cfg bufLen r = some o) : loop (r.length / 4 + 1) cfg bufLen r = some o := by
  obtain ⟨o1, ho1⟩ := loop_total cfg (r.length / 4 + 1) bufLen r (by omega)
  rcases Nat.le_total f (r.length / 4 + 1) with hle | hle
  · exact loop_mono cfg o f _ bufLen r hle h
  · have := loop_mono cfg o1 _ f bufLen r hle ho1
    rw [h] at this
    rw [ho1]
    exact this.symm

/-- A run of skipped segments costs one pass each and leaves the reader behind
the last payload. -/
theorem loop_skip (segs : List Segment) (hsegs : ∀ sg ∈ segs, sg.Skipped)
    (t : List Byte) (cfg : Config) (fuel : Nat) :
    ∀ bufLen : Nat, ∃ b1 : Nat,
      loop (segs.length + fuel) cfg bufLen (encodeSegments segs ++ t) = loop fuel cfg b1 t := by
  induction segs with
  | nil => intro bufLen; exact ⟨bufLen, by simp [encodeSegments]⟩
  | cons sg segs ih =>
    intro bufLen
    have hsg : sg.Skipped := hsegs sg (by simp)
    have hrest : ∀ x ∈ segs, x.Skipped := fun x hx => hsegs x (by simp [hx])
    obtain ⟨b1, hb1⟩ := ih hrest (if bufLen < sg.declared then sg.declared else bufLen)
    refine ⟨b1, ?_⟩
    have hf : (sg :: segs).length + fuel = (segs.length + fuel) + 1 := by simp; omega
    rw [hf]
    simp only [encodeSegments, List.append_assoc]
    rw [loop_next _ cfg bufLen _ _ _ (iteration_skip cfg bufLen sg hsg _)]
    exact hb1

theorem DecodeConfig_short (r : List Byte) (h : r.length < 2) :
    DecodeConfig r = some (.ret { cfg := initCfg, err := some (shortErr r), rest := [] }) := by
  unfold DecodeConfig
  rw [binaryRead_of_lt 2 _ _ r h]

theorem DecodeConfig_badmagic (r : List Byte) (h : 2 ≤ r.length) (hm : r.take 2 ≠ Header) :
    DecodeConfig r
      = some (.ret { cfg := initCfg, err := some ErrInvalid, rest := r.drop 2 }) := by
  unfold DecodeConfig
  rw [binaryRead_of_le 2 _ _ r h]
  simp [hm]

theorem DecodeConfig_magic (t : List Byte) :
    DecodeConfig (Header ++ t) = loop (t.length / 4 + 1) initCfg 0 t := by
  unfold DecodeConfig
  rw [binaryRead_append id [0, 0] Header t 2 rfl]
  simp

theorem DecodeConfig_of_loop (f : Nat) (t : List Byte) (o : Outcome)
    (h : loop f initCfg 0 t = some o) : DecodeConfig (Header ++ t) = some o := by
  rw [DecodeConfig_magic]
  exact loop_canonical initCfg f 0 t o h

/-- Behind the magic and a run of skipped segments, a pass that ends the loop
whatever the length of buf gives the outcome of DecodeConfig. -/
theorem DecodeConfig_after_segments (segs : List Segment) (hsegs : ∀ sg ∈ segs, sg.Skipped)
    (t : List Byte) (o : Outcome) (h : ∀ b, iteration initCfg b t = .done o) :
    DecodeConfig (Header ++ (encodeSegments segs ++ t)) = some o := by
  obtain ⟨b1, hb1⟩ := loop_skip segs hsegs t initCfg 1 0
  apply DecodeConfig_of_loop (segs.length + 1)
  rw [hb1]
  exact loop_done 0 initCfg b1 t o (h b1)

end jpeg

/-! ## jpeg.DecodeConfig on an arbitrary reader -/

namespace jpeg

/-- The three ways jpeg.DecodeConfig can start. -/
theorem DecodeConfig_cases (s : List Byte) :
    s.length < 2 ∨ (2 ≤ s.length ∧ s.take 2 ≠ Header) ∨ s = Header ++ s.drop 2 := by
  by_cases h2 : s.length < 2
  · exact Or.inl h2
  · by_cases hm : s.take 2 = Header
    · right; right
      conv_lhs => rw [← List.take_append_drop 2 s]
      rw [hm]
    · exact Or.inr (Or.inl ⟨by omega, hm⟩)

/-- The call comes to an end on every reader. -/
theorem DecodeConfig_total (s : List Byte) : ∃ o, DecodeConfig s = some o := by
  rcases DecodeConfig_cases s with h | ⟨h, hm⟩ | h
  · exact ⟨_, DecodeConfig_short s h⟩
  · exact ⟨_, DecodeConfig_badmagic s h hm⟩
  · rw [h, DecodeConfig_magic]
    exact loop_total initCfg _ 0 _ (by omega)

/-- A configuration returned by the loop has the dimensions of the one the loop
started with, or dimensions decoded from unsigned fields. -/
theorem loop_dims_nonneg (cfg : Config) (hw : 0 ≤ cfg.Width) (hh : 0 ≤ cfg.Height) :
    ∀ (f bufLen : Nat) (r : List Byte) (res : Result),
      loop f cfg bufLen r = some (.ret res) → 0 ≤ res.cfg.Width ∧ 0 ≤ res.cfg.Height := by
  intro f
  induction f with
  | zero => intro bufLen r res h; simp [loop] at h
  | succ f ih =>
    intro bufLen r res h
    cases hit : iteration cfg bufLen r with
    | next b1 r1 =>
      rw [loop_next f cfg bufLen r b1 r1 hit] at h
      exact ih b1 r1 res h
    | done o =>
      rw [loop_done f cfg bufLen r o hit] at h
      simp only [Option.some.injEq] at h
      subst h
      rw [iteration_eq] at hit
      split at hit
      · simp only [Step.done.injEq, Outcome.ret.injEq] at hit
        subst hit; exact ⟨hw, hh⟩
      split at hit
      · simp only [Step.done.injEq, Outcome.ret.injEq] at hit
        subst hit; exact ⟨hw, hh⟩
      split at hit
      · split at hit
        · simp only [Step.done.injEq, Outcome.ret.injEq] at hit
          subst hit; exact ⟨le_refl _, le_refl _⟩
        · simp only [Step.done.injEq, Outcome.ret.injEq] at hit
          subst hit
          exact ⟨Int.ofNat_nonneg _, Int.ofNat_nonneg _⟩
      split at hit
      · simp at hit
      split at hit
      · simp only [Step.done.injEq, Outcome.ret.injEq] at hit
        subst hit; exact ⟨hw, hh⟩
      · simp at hit

theorem DecodeConfig_dims_nonneg (s : List Byte) (res : Result)
    (h : DecodeConfig s = some (.ret res)) : 0 ≤ res.cfg.Width ∧ 0 ≤ res.cfg.Height := by
  rcases DecodeConfig_cases s with h2 | ⟨h2, hm⟩ | h2
  · rw [DecodeConfig_short s h2] at h
    simp only [Option.some.injEq, Outcome.ret.injEq] at h
    subst h; exact ⟨le_refl _, le_refl _⟩
  · rw [DecodeConfig_badmagic s h2 hm] at h
    simp only [Option.some.injEq, Outcome.ret.injEq] at h
    subst h; exact ⟨le_refl _, le_refl _⟩
  · rw [h2, DecodeConfig_magic] at h
    exact loop_dims_nonneg initCfg (le_refl _) (le_refl _) _ 0 _ res h

end jpeg

/-! ## One pass of the loop by cases, and on a truncated reader -/

theorem shortErr_cases (r : List Byte) : shortErr r = .EOF ∨ shortErr r = .ErrUnexpectedEOF := by
  unfold shortErr
  split <;> simp

theorem beUint16_take (r : List Byte) (n off : Nat) (h : off + 2 ≤ n) :
    beUint16 (r.take n) off = beUint16 r off := by
  unfold beUint16
  rw [byteAt_take r n off (by omega), byteAt_take r n (off + 1) (by omega)]

namespace jpeg

theorem iteration_short (cfg : Config) (bufLen : Nat) (r : List Byte) (h : r.length < 4) :
    iteration cfg bufLen r
      = .done (.ret { cfg := cfg, err := some (shortErr r), rest := [] }) := by
  rw [iteration_eq]; simp [h]

theorem iteration_sof_short (cfg : Config) (bufLen : Nat) (r : List Byte)
    (h4 : 4 ≤ r.length) (hs : byteAt r 0 = 0xff)
    (hm : byteAt r 1 = 0xc0 ∨ byteAt r 1 = 0xc1 ∨ byteAt r 1 = 0xc2) (h9 : r.length < 9) :
    iteration cfg bufLen r
      = .done (.ret { cfg := { cfg with Width := 0, Height := 0 },
                      err := some (shortErr (r.drop 4)), rest := [] }) := by
  have h4n : ¬ r.length < 4 := by omega
  rw [iteration_eq]; simp [h4n, hs, hm, h9]

theorem iteration_skip_short (cfg : Config) (bufLen : Nat) (r : List Byte)
    (h4 : 4 ≤ r.length) (hs : byteAt r 0 = 0xff)
    (hm : ¬ (byteAt r 1 = 0xc0 ∨ byteAt r 1 = 0xc1 ∨ byteAt r 1 = 0xc2))
    (hL : 2 ≤ beUint16 r 2) (hlen : r.length < beUint16 r 2 + 2) :
    iteration cfg bufLen r
      = .done (.ret { cfg := cfg, err := some (shortErr (r.drop 4)), rest := [] }) := by
  have h4n : ¬ r.length < 4 := by omega
  have hLn : ¬ beUint16 r 2 < 2 := by omega
  rw [iteration_eq]
  simp only [h4n, hs, hm, hLn, hlen, if_true, if_false, ne_eq, not_true_eq_false]

theorem iteration_skip_ok (cfg : Config) (bufLen : Nat) (r : List Byte)
    (h4 : 4 ≤ r.length) (hs : byteAt r 0 = 0xff)
    (hm : ¬ (byteAt r 1 = 0xc0 ∨ byteAt r 1 = 0xc1 ∨ byteAt r 1 = 0xc2))
    (hL : 2 ≤ beUint16 r 2) (hlen : beUint16 r 2 + 2 ≤ r.length) :
    iteration cfg bufLen r
      = .next (if bufLen < beUint16 r 2 then beUint16 r 2 else bufLen)
          (r.drop (beUint16 r 2 + 2)) := by
  have h4n : ¬ r.length < 4 := by omega
  have hLn : ¬ beUint16 r 2 < 2 := by omega
  have hln : ¬ r.length < beUint16 r 2 + 2 := by omega
  rw [iteration_eq]
  simp only [h4n, hs, hm, hLn, hln, if_true, if_false, ne_eq, not_true_eq_false]

/-- A pass that returns a nil error has read a start of frame of 9 bytes. -/
theorem iteration_done_ok (cfg : Config) (bufLen : Nat) (r : List Byte) (res : Result)
    (h : iteration cfg bufLen r = .done (.ret res)) (he : res.err = none) :
    9 ≤ r.length ∧ byteAt r 0 = 0xff
      ∧ (byteAt r 1 = 0xc0 ∨ byteAt r 1 = 0xc1 ∨ byteAt r 1 = 0xc2)
      ∧ res = { cfg := { cfg with Width := (beUint16 r 7 : Nat), Height := (beUint16 r 5 : Nat) },
                err := none, rest := r.drop 9 } := by
  rw [iteration_eq] at h
  split at h
  · simp only [Step.done.injEq, Outcome.ret.injEq] at h
    subst h; simp at he
  split at h
  · simp only [Step.done.injEq, Outcome.ret.injEq] at h
    subst h; simp at he
  rename_i hs
  split at h
  · rename_i hm
    split at h
    · simp only [Step.done.injEq, Outcome.ret.injEq] at h
      subst h; simp at he
    · simp only [Step.done.injEq, Outcome.ret.injEq] at h
      exact ⟨by omega, by simpa using hs, hm, h.symm⟩
  split at h
  · simp at h
  split at h
  · simp only [Step.done.injEq, Outcome.ret.injEq] at h
    subst h; simp at he
  · simp at h

/-- A pass that goes round again has skipped a segment that is all there. -/
theorem iteration_next_inv (cfg : Config) (bufLen : Nat) (r : List Byte)
    (b1 : Nat) (r1 : List Byte) (h : iteration cfg bufLen r = .next b1 r1) :
    byteAt r 0 = 0xff ∧ ¬ (byteAt r 1 = 0xc0 ∨ byteAt r 1 = 0xc1 ∨ byteAt r 1 = 0xc2)
      ∧ 2 ≤ beUint16 r 2 ∧ beUint16 r 2 + 2 ≤ r.length
      ∧ r1 = r.drop (beUint16 r 2 + 2) := by
  rw [iteration_eq] at h
  split at h
  · simp at h
  split at h
  · simp at h
  rename_i hs
  split at h
  · split at h <;> simp at h
  rename_i hm
  split at h
  · simp at h
  split at h
  · simp at h
  · simp only [Step.next.injEq] at h
    exact ⟨by simpa using hs, hm, by omega, by omega, h.2.symm⟩

/-- Cutting the reader short of the bytes a successful run of the loop consumed
turns the result into an end-of-stream error. -/
theorem loop_truncated (cfg : Config) :
    ∀ (f bufLen : Nat) (r : List Byte) (res : Result),
      loop f cfg bufLen r = some (.ret res) → res.err = none →
      ∀ k, k + res.rest.length < r.length →
        ∃ c e, loop f cfg bufLen (r.take k) = some (.ret { cfg := c, err := some e, rest := [] })
          ∧ (e = .EOF ∨ e = .ErrUnexpectedEOF) := by
  intro f
  induction f with
  | zero => intro bufLen r res h; simp [loop] at h
  | succ f ih =>
    intro bufLen r res h he k hk
    have hkr : k ≤ r.length := by omega
    have hlk : (r.take k).length = k := by simp [hkr]
    by_cases hk4 : k < 4
    · exact ⟨cfg, shortErr (r.take k),
        loop_done f cfg bufLen _ _ (iteration_short cfg bufLen _ (by omega)),
        shortErr_cases _⟩
    have hb0 : byteAt (r.take k) 0 = byteAt r 0 := byteAt_take r k 0 (by omega)
    have hb1 : byteAt (r.take k) 1 = byteAt r 1 := byteAt_take r k 1 (by omega)
    have hbL : beUint16 (r.take k) 2 = beUint16 r 2 := beUint16_take r k 2 (by omega)
    cases hit : iteration cfg bufLen r with
    | done o =>
      rw [loop_done f cfg bufLen r o hit] at h
      simp only [Option.some.injEq] at h
      subst h
      obtain ⟨h9, hs, hm, hres⟩ := iteration_done_ok cfg bufLen r res hit he
      have hrest : res.rest.length = r.length - 9 := by rw [hres]; simp
      refine ⟨_, shortErr ((r.take k).drop 4),
        loop_done f cfg bufLen _ _ (iteration_sof_short cfg bufLen _ (by omega)
          (by rw [hb0]; exact hs) (by rw [hb1]; exact hm) (by omega)),
        shortErr_cases _⟩
    | next b1 r1 =>
      rw [loop_next f cfg bufLen r b1 r1 hit] at h
      obtain ⟨hs, hm, hL, hlen, hr1⟩ := iteration_next_inv cfg bufLen r b1 r1 hit
      by_cases hkL : k < beUint16 r 2 + 2
      · exact ⟨cfg, shortErr ((r.take k).drop 4),
          loop_done f cfg bufLen _ _ (iteration_skip_short cfg bufLen _ (by omega)
            (by rw [hb0]; exact hs) (by rw [hb1]; exact hm) (by omega) (by omega)),
          shortErr_cases _⟩
      · have hnext := iteration_skip_ok cfg bufLen (r.take k) (by omega)
          (by rw [hb0]; exact hs) (by rw [hb1]; exact hm) (by omega) (by omega)
        have hit2 := iteration_skip_ok cfg bufLen r (by omega) hs hm hL hlen
        rw [hit] at hit2
        simp only [Step.next.injEq] at hit2
        rw [hbL, List.drop_take, ← hit2.1, ← hr1] at hnext
        have hr1len : r1.length = r.length - (beUint16 r 2 + 2) := by rw [hr1]; simp
        obtain ⟨c, e, hc, hec⟩ := ih b1 r1 res h he (k - (beUint16 r 2 + 2)) (by omega)
        exact ⟨c, e, by rw [loop_next f cfg bufLen _ _ _ hnext]; exact hc, hec⟩

end jpeg

/-! ## bmp.DecodeConfig, read off the bytes of the reader -/

theorem leUint32_take (r : List Byte) (n off : Nat) (h : off + 4 ≤ n) :
    leUint32 (r.take n) off = leUint32 r off := by
  unfold leUint32
  rw [byteAt_take r n off (by omega), byteAt_take r n (off + 1) (by omega),
    byteAt_take r n (off + 2) (by omega), byteAt_take r n (off + 3) (by omega)]

theorem leUint16_take (r : List Byte) (n off : Nat) (h : off + 2 ≤ n) :
    leUint16 (r.take n) off = leUint16 r off := by
  unfold leUint16
  rw [byteAt_take r n off (by omega), byteAt_take r n (off + 1) (by omega)]

theorem leUint32_drop (r : List Byte) (n off : Nat) :
    leUint32 (r.drop n) off = leUint32 r (n + off) := by
  simp [leUint32, byteAt_drop, Nat.add_assoc]

theorem leUint16_drop (r : List Byte) (n off : Nat) :
    leUint16 (r.drop n) off = leUint16 r (n + off) := by
  simp [leUint16, byteAt_drop, Nat.add_assoc]

theorem leUint32_lt (r : List Byte) (off : Nat) : leUint32 r off < 2 ^ 32 := by
  have h0 := byteAt_lt r off
  have h1 := byteAt_lt r (off + 1)
  have h2 := byteAt_lt r (off + 2)
  have h3 := byteAt_lt r (off + 3)
  unfold leUint32
  omega

/-- The whole of bmp.DecodeConfig by cases on the reader: the header is r[0..17],
the variant size r[14..17], the dimension fields start at r[18]. -/
theorem bmp_DecodeConfig_eq (r : List Byte) :
    bmp.DecodeConfig r =
      if r.length < 18 then
        { cfg := initCfg, err := some (shortErr r), rest := [] }
      else if r.take 2 ≠ bmp.Header then
        { cfg := initCfg, err := some bmp.ErrInvalid, rest := r.drop 18 }
      else if leUint32 r 14 = 12 then
        if r.length < 22 then
          { cfg := initCfg, err := some (shortErr (r.drop 18)), rest := [] }
        else
          { cfg := { ColorModel := .RGBAModel, Width := (leUint16 r 18 : Nat),
                     Height := (leUint16 r 20 : Nat) },
            err := none, rest := r.drop 22 }
      else if leUint32 r 14 = 40 ∨ leUint32 r 14 = 56 ∨ leUint32 r 14 = 108
          ∨ leUint32 r 14 = 124 then
        if r.length < 26 then
          { cfg := initCfg, err := some (shortErr (r.drop 18)), rest := [] }
        else
          { cfg := { ColorModel := .RGBAModel, Width := toInt32 (leUint32 r 18),
                     Height := bmp.magnitude (toInt32 (leUint32 r 22)) },
            err := none, rest := r.drop 26 }
      else
        { cfg := initCfg, err := some bmp.ErrInvalid, rest := r.drop 18 } := by
  unfold bmp.DecodeConfig
  by_cases h18 : r.length < 18
  · rw [binaryRead_of_lt 18 _ _ r h18]
    simp [h18]
  · rw [binaryRead_of_le 18 _ _ r (by omega)]
    have hM : (bmp.bmpHeader.decode (r.take 18)).Magic = r.take 2 := by
      simp [bmp.bmpHeader.decode, List.take_take]
    have hD : (bmp.bmpHeader.decode (r.take 18)).DIBSize = leUint32 r 14 := by
      simp [bmp.bmpHeader.decode, leUint32_take]
    simp only [hM, hD, h18, if_false]
    by_cases hm : r.take 2 = bmp.Header
    · simp only [hm, ne_eq, not_true_eq_false, if_false]
      unfold bmp.dimSwitch
      by_cases h12 : leUint32 r 14 = 12
      · simp only [h12, if_true]
        by_cases h22 : r.length < 22
        · rw [binaryRead_of_lt 4 _ _ (r.drop 18) (by simp; omega)]
          simp [h22, initCfg]
        · rw [binaryRead_of_le 4 _ _ (r.drop 18) (by simp; omega)]
          have hneg : ¬ ((leUint16 r 20 : Nat) : Int) < 0 := by omega
          simp [h22, initCfg, bmp.decodeDim16, leUint16_take, leUint16_drop, hneg]
      · simp only [h12, if_false]
        by_cases h40 : leUint32 r 14 = 40 ∨ leUint32 r 14 = 56 ∨ leUint32 r 14 = 108
            ∨ leUint32 r 14 = 124
        · simp only [h40, if_true]
          by_cases h26 : r.length < 26
          · rw [binaryRead_of_lt 8 _ _ (r.drop 18) (by simp; omega)]
            simp [h26, initCfg]
          · rw [binaryRead_of_le 8 _ _ (r.drop 18) (by simp; omega)]
            have e1 : leUint32 ((r.drop 18).take 8) 0 = leUint32 r 18 := by
              rw [leUint32_take _ 8 0 (by omega), leUint32_drop]
            have e2 : leUint32 ((r.drop 18).take 8) 4 = leUint32 r 22 := by
              rw [leUint32_take _ 8 4 (by omega), leUint32_drop]
            simp only [h26, if_false, initCfg, bmp.decodeDim32, e1, e2, List.drop_drop,
              bmp.magnitude]
            split <;> simp_all
        · simp [h40, initCfg]
    · simp [hm]

/-! ## Fields written by the encoders and read back by the decoders -/

theorem leUint32_u32le (n : Nat) (hn : n < 2 ^ 32) (t : List Byte) :
    leUint32 (u32le n ++ t) 0 = n := by
  simp [leUint32, u32le, byteAt, toByte_val]
  omega

theorem leUint16_u16le (n : Nat) (hn : n < 2 ^ 16) (t : List Byte) :
    leUint16 (u16le n ++ t) 0 = n := by
  simp [leUint16, u16le, byteAt, toByte_val]
  omega

theorem leUint32_at (a : List Byte) (n : Nat) (b : List Byte) (off : Nat)
    (h : a.length = off) (hn : n < 2 ^ 32) : leUint32 (a ++ (u32le n ++ b)) off = n := by
  have e : leUint32 (a ++ (u32le n ++ b)) off
      = leUint32 ((a ++ (u32le n ++ b)).drop off) 0 := by
    rw [leUint32_drop]; simp
  rw [e, List.drop_left' h]
  exact leUint32_u32le n hn b

theorem leUint16_at (a : List Byte) (n : Nat) (b : List Byte) (off : Nat)
    (h : a.length = off) (hn : n < 2 ^ 16) : leUint16 (a ++ (u16le n ++ b)) off = n := by
  have e : leUint16 (a ++ (u16le n ++ b)) off
      = leUint16 ((a ++ (u16le n ++ b)).drop off) 0 := by
    rw [leUint16_drop]; simp
  rw [e, List.drop_left' h]
  exact leUint16_u16le n hn b

/-- A signed 32-bit number is read back from its two's complement pattern. -/
theorem toInt32_pattern (x : Int) (h1 : -2 ^ 31 ≤ x) (h2 : x < 2 ^ 31) :
    toInt32 (x % 2 ^ 32).toNat = x := by
  unfold toInt32
  split <;> omega

theorem pattern_lt (x : Int) : (x % 2 ^ 32).toNat < 2 ^ 32 := by omega

/-- On a height in the range of int32 the negation of a Go int does not wrap:
the height reported is the absolute value. -/
theorem magnitude_eq_abs (x : Int) (h1 : -2 ^ 31 ≤ x) (h2 : x < 2 ^ 31) :
    bmp.magnitude x = |x| := by
  unfold bmp.magnitude negInt wrapInt
  split
  · rw [abs_of_neg (by assumption)]
    omega
  · rw [abs_of_nonneg (by omega)]

theorem toInt32_range (u : Nat) (h : u < 2 ^ 32) :
    -2 ^ 31 ≤ toInt32 u ∧ toInt32 u < 2 ^ 31 := by
  unfold toInt32
  split <;> omega

theorem magnitude_nonneg (x : Int) (h1 : -2 ^ 31 ≤ x) (h2 : x < 2 ^ 31) :
    0 ≤ bmp.magnitude x := by
  rw [magnitude_eq_abs x h1 h2]
  exact abs_nonneg x

/-! ## Truncated streams -/

theorem jpeg_DecodeConfig_truncated (s : List Byte) (res : Result)
    (h : jpeg.DecodeConfig s = some (.ret res)) (he : res.err = none)
    (k : Nat) (hk : k + res.rest.length < s.length) :
    ∃ c e, jpeg.DecodeConfig (s.take k)
        = some (.ret { cfg := c, err := some e, rest := [] })
      ∧ (e = .EOF ∨ e = .ErrUnexpectedEOF) := by
  rcases jpeg.DecodeConfig_cases s with h2 | ⟨h2, hm⟩ | h2
  · rw [jpeg.DecodeConfig_short s h2] at h
    simp only [Option.some.injEq, Outcome.ret.injEq] at h
    subst h; simp at he
  · rw [jpeg.DecodeConfig_badmagic s h2 hm] at h
    simp only [Option.some.injEq, Outcome.ret.injEq] at h
    subst h; simp [jpeg.ErrInvalid] at he
  · by_cases hk2 : k < 2
    · exact ⟨initCfg, shortErr (s.take k),
        jpeg.DecodeConfig_short _ (by simp; omega), shortErr_cases _⟩
    · have hlen : s.length = 2 + (s.drop 2).length := by
        conv_lhs => rw [h2]
        simp [jpeg.Header]
        omega
      rw [h2, jpeg.DecodeConfig_magic] at h
      obtain ⟨c, e, hc, hec⟩ := jpeg.loop_truncated initCfg _ 0 (s.drop 2) res h he (k - 2)
        (by omega)
      have htake : s.take k = jpeg.Header ++ (s.drop 2).take (k - 2) := by
        conv_lhs => rw [h2]
        rw [List.take_append_eq_append_take, List.take_of_length_le (by simp [jpeg.Header]; omega)]
        simp [jpeg.Header]
      rw [htake]
      exact ⟨c, e, jpeg.DecodeConfig_of_loop _ _ _ hc, hec⟩

theorem bmp_DecodeConfig_truncated (s : List Byte)
    (he : (bmp.DecodeConfig s).err = none)
    (k : Nat) (hk : k + (bmp.DecodeConfig s).rest.length < s.length) :
    ∃ e, bmp.DecodeConfig (s.take k) = { cfg := initCfg, err := some e, rest := [] }
      ∧ (e = .EOF ∨ e = .ErrUnexpectedEOF) := by
  have hkr : k ≤ s.length := by omega
  have hlk : (s.take k).length = k := by simp [hkr]
  by_cases hk18 : k < 18
  · refine ⟨shortErr (s.take k), ?_, shortErr_cases _⟩
    rw [bmp_DecodeConfig_eq (s.take k)]
    simp [hlk, hk18]
  have hmg : (s.take k).take 2 = s.take 2 := by
    rw [List.take_take]; congr 1; omega
  have hdb : leUint32 (s.take k) 14 = leUint32 s 14 := leUint32_take s k 14 (by omega)
  rw [bmp_DecodeConfig_eq s] at he hk
  rw [bmp_DecodeConfig_eq (s.take k), hlk, hmg, hdb]
  split at he
  · simp at he
  split at he
  · simp [bmp.ErrInvalid] at he
  rename_i h18 hm
  simp only [h18, hm, hk18, if_false] at hk ⊢
  split at he
  · rename_i h12
    simp only [h12, if_true] at hk ⊢
    split at he
    · simp at he
    · rename_i h22
      simp only [h22, if_false, List.length_drop] at hk
      have : k < 22 := by omega
      refine ⟨shortErr ((s.take k).drop 18), ?_, shortErr_cases _⟩
      simp only [this, if_true]
  rename_i h12
  simp only [h12, if_false] at hk ⊢
  split at he
  · rename_i h40
    simp only [h40, if_true] at hk ⊢
    split at he
    · simp at he
    · rename_i h26
      simp only [h26, if_false, List.length_drop] at hk
      have : k < 26 := by omega
      refine ⟨shortErr ((s.take k).drop 18), ?_, shortErr_cases _⟩
      simp only [this, if_true]
  · simp [bmp.ErrInvalid] at he

/-! ## Claims -/

/-- C1: jpeg.DecodeConfig on FF D8, any number of segments whose marker code is none of
C0, C1, C2 and whose declared length L (2 ≤ L ≤ 65535) is followed by exactly L - 2
payload bytes, then FF, a start-of-frame code m, two length bytes, a precision byte,
big-endian H and big-endian W, then any bytes t, returns Width = W, Height = H,
ColorModel = RGBA and a nil error, and leaves t unread. -/
theorem C1_skips_segments_to_first_sof (segs : List Segment)
    (hsegs : ∀ sg ∈ segs, sg.Skipped) (m l1 l2 p : Byte) (hm : IsSOF m)
    (H W : Nat) (hH : H < 65536) (hW : W < 65536) (t : List Byte) :
    jpeg.DecodeConfig
        (jpeg.Header ++ encodeSegments segs ++ [0xff, m, l1, l2, p] ++ u16be H ++ u16be W ++ t)
      = some (.ret { cfg := { ColorModel := .RGBAModel, Width := (W : Nat), Height := (H : Nat) },
                     err := none, rest := t }) := by
  have := jpeg.DecodeConfig_after_segments segs hsegs
    (0xff :: m :: l1 :: l2 :: p :: (u16be H ++ (u16be W ++ t))) _
    (fun b => jpeg.iteration_sof initCfg b m l1 l2 p hm H W hH hW t)
  simpa [initCfg] using this

/-- Witness of C1: two skipped segments, the first with a payload that looks like
a start of frame, the second with an empty payload, then a start of frame. -/
theorem C1_skips_segments_to_first_sof_witness :
    jpeg.DecodeConfig
        (jpeg.Header ++ encodeSegments [⟨0xe0, [0xff, 0xc0, 0, 0]⟩, ⟨0xdb, []⟩]
          ++ [0xff, 0xc2, 0, 17, 8] ++ u16be 320 ++ u16be 240 ++ [1, 2, 3])
      = some (.ret { cfg := { ColorModel := .RGBAModel, Width := 240, Height := 320 },
                     err := none, rest := [1, 2, 3] }) :=
  C1_skips_segments_to_first_sof [⟨0xe0, [0xff, 0xc0, 0, 0]⟩, ⟨0xdb, []⟩] (by decide)
    0xc2 0 17 8 (by decide) 320 240 (by decide) (by decide) [1, 2, 3]

/-- C2, refuted as stated: on the 27-byte stream with an all-zero payload and
precision 8 the four bytes FF C0 08 01 are read as the segment header, the
three bytes left are too few for the dimension fields, and the call returns
io.ErrUnexpectedEOF with Width = 0 and Height = 0. -/
theorem C2_counterexample :
    jpeg.DecodeConfig ([0xff, 0xd8, 0xff, 0xe0, 0x00, 0x10] ++ List.replicate 14 0
        ++ [0xff, 0xc0, 8, 0x01, 0x40, 0x00, 0xf0])
      = some (.ret { cfg := { ColorModel := .RGBAModel, Width := 0, Height := 0 },
                     err := some .ErrUnexpectedEOF, rest := [] })
    ∧ ¬ ∃ rest, jpeg.DecodeConfig ([0xff, 0xd8, 0xff, 0xe0, 0x00, 0x10] ++ List.replicate 14 0
        ++ [0xff, 0xc0, 8, 0x01, 0x40, 0x00, 0xf0])
      = some (.ret { cfg := { ColorModel := .RGBAModel, Width := 240, Height := 320 },
                     err := none, rest := rest }) := by
  have h : jpeg.DecodeConfig ([0xff, 0xd8, 0xff, 0xe0, 0x00, 0x10] ++ List.replicate 14 0
        ++ [0xff, 0xc0, 8, 0x01, 0x40, 0x00, 0xf0])
      = some (.ret { cfg := { ColorModel := .RGBAModel, Width := 0, Height := 0 },
                     err := some .ErrUnexpectedEOF, rest := [] }) := by decide
  refine ⟨h, ?_⟩
  rintro ⟨rest, hr⟩
  rw [h] at hr
  simp at hr

/-- C2, amended: for every 14 payload bytes, every two length bytes l1 l2 and every
precision byte p, jpeg.DecodeConfig on the 29-byte stream FF D8, FF E0, 00 10, the
payload, FF C0, l1 l2, p, 01 40, 00 F0 returns Width = 240, Height = 320 and a nil
error: the bytes behind the start-of-frame marker code are read as a 2-byte
length, the precision, the height and the width.  On the 27-byte stream without
l1 l2 the call returns io.ErrUnexpectedEOF. -/
theorem C2_sof_fields_follow_length (payload : List Byte) (hp : payload.length = 14)
    (l1 l2 p : Byte) :
    jpeg.DecodeConfig ([0xff, 0xd8, 0xff, 0xe0, 0x00, 0x10] ++ payload
        ++ [0xff, 0xc0, l1, l2, p, 0x01, 0x40, 0x00, 0xf0])
      = some (.ret { cfg := { ColorModel := .RGBAModel, Width := 240, Height := 320 },
                     err := none, rest := [] })
    ∧ jpeg.DecodeConfig ([0xff, 0xd8, 0xff, 0xe0, 0x00, 0x10] ++ payload
        ++ [0xff, 0xc0, p, 0x01, 0x40, 0x00, 0xf0])
      = some (.ret { cfg := { ColorModel := .RGBAModel, Width := 0, Height := 0 },
                     err := some .ErrUnexpectedEOF, rest := [] }) := by
  have hsk : ∀ sg ∈ [(⟨0xe0, payload⟩ : Segment)], sg.Skipped := by
    intro sg hsg
    simp only [List.mem_singleton] at hsg
    subst hsg
    refine ⟨?_, ?_, ?_, ?_⟩
    · show (224 : Nat) ≠ 192
      decide
    · show (224 : Nat) ≠ 193
      decide
    · show (224 : Nat) ≠ 194
      decide
    · simp [Segment.declared, hp]
  have h16 : u16be 16 = [0x00, 0x10] := by decide
  have henc : encodeSegments [(⟨0xe0, payload⟩ : Segment)]
      = [0xff, 0xe0, 0x00, 0x10] ++ payload := by
    simp [encodeSegments, Segment.encode, Segment.declared, hp, h16]
  constructor
  · have := jpeg.DecodeConfig_after_segments _ hsk
      (0xff :: 0xc0 :: l1 :: l2 :: p :: (u16be 320 ++ (u16be 240 ++ []))) _
      (fun b => jpeg.iteration_sof initCfg b 0xc0 l1 l2 p (by decide) 320 240
        (by decide) (by decide) [])
    rw [henc] at this
    have h1 : u16be 320 = [0x01, 0x40] := by decide
    have h2 : u16be 240 = [0x00, 0xf0] := by decide
    rw [h1, h2] at this
    simpa [jpeg.Header, initCfg] using this
  · have := jpeg.DecodeConfig_after_segments _ hsk
      [0xff, 0xc0, p, 0x01, 0x40, 0x00, 0xf0]
      (.ret { cfg := { ColorModel := .RGBAModel, Width := 0, Height := 0 },
              err := some .ErrUnexpectedEOF, rest := [] })
      (fun b => by
        have h0 : byteAt [0xff, 0xc0, p, 0x01, 0x40, 0x00, 0xf0] 0 = 0xff := rfl
        have h1 : byteAt [0xff, 0xc0, p, 0x01, 0x40, 0x00, 0xf0] 1 = 0xc0 := rfl
        rw [jpeg.iteration_eq, h0, h1]
        simp [shortErr, initCfg])
    rw [henc] at this
    simpa [jpeg.Header] using this

/-- Witness of C2 (amended): payload 1..14, length bytes 00 11, precision 8. -/
theorem C2_sof_fields_follow_length_witness :
    jpeg.DecodeConfig ([0xff, 0xd8, 0xff, 0xe0, 0x00, 0x10]
        ++ [1, 2, 3, 4, 5, 6, 7, 8, 9, 10, 11, 12, 13, 14]
        ++ [0xff, 0xc0, 0x00, 0x11, 8, 0x01, 0x40, 0x00, 0xf0])
      = some (.ret { cfg := { ColorModel := .RGBAModel, Width := 240, Height := 320 },
                     err := none, rest := [] }) :=
  (C2_sof_fields_follow_length [1, 2, 3, 4, 5, 6, 7, 8, 9, 10, 11, 12, 13, 14] (by decide)
    0x00 0x11 8).1

/-- C3: for v in {40, 56, 108, 124} and signed 32-bit W and H (H = -2^31
included), bmp.DecodeConfig on 'B','M', 12 arbitrary bytes, v as little-endian u32,
W and H as little-endian i32, then any bytes t, returns Width = W, Height = |H|,
ColorModel = RGBA and a nil error, and leaves t unread. -/
theorem C3_bmp_32bit_variants (v : Nat) (hv : v = 40 ∨ v = 56 ∨ v = 108 ∨ v = 124)
    (mid : List Byte) (hmid : mid.length = 12) (W H : Int)
    (hW1 : -2 ^ 31 ≤ W) (hW2 : W < 2 ^ 31) (hH1 : -2 ^ 31 ≤ H) (hH2 : H < 2 ^ 31)
    (t : List Byte) :
    bmp.DecodeConfig ([0x42, 0x4d] ++ mid ++ u32le v ++ i32le W ++ i32le H ++ t)
      = { cfg := { ColorModel := .RGBAModel, Width := W, Height := |H| },
          err := none, rest := t } := by
  have hlen : ([0x42, 0x4d] ++ mid ++ u32le v ++ i32le W ++ i32le H ++ t).length
      = 26 + t.length := by
    simp [u32le, i32le, hmid]; omega
  have hmagic : ([0x42, 0x4d] ++ mid ++ u32le v ++ i32le W ++ i32le H ++ t).take 2
      = bmp.Header := by
    simp [bmp.Header]
  have h14 : leUint32 ([0x42, 0x4d] ++ mid ++ u32le v ++ i32le W ++ i32le H ++ t) 14 = v := by
    have := leUint32_at ([0x42, 0x4d] ++ mid) v (i32le W ++ (i32le H ++ t)) 14
      (by simp [hmid]) (by omega)
    simpa using this
  have h18 : leUint32 ([0x42, 0x4d] ++ mid ++ u32le v ++ i32le W ++ i32le H ++ t) 18
      = (W % 2 ^ 32).toNat := by
    have := leUint32_at ([0x42, 0x4d] ++ mid ++ u32le v) (W % 2 ^ 32).toNat (i32le H ++ t) 18
      (by simp [hmid, u32le]) (pattern_lt W)
    simpa [i32le] using this
  have h22 : leUint32 ([0x42, 0x4d] ++ mid ++ u32le v ++ i32le W ++ i32le H ++ t) 22
      = (H % 2 ^ 32).toNat := by
    have := leUint32_at ([0x42, 0x4d] ++ mid ++ u32le v ++ i32le W) (H % 2 ^ 32).toNat t 22
      (by simp [hmid, u32le, i32le]) (pattern_lt H)
    simpa [i32le] using this
  have hdrop : ([0x42, 0x4d] ++ mid ++ u32le v ++ i32le W ++ i32le H ++ t).drop 26 = t :=
    List.drop_left' (by simp [hmid, u32le, i32le])
  have hv12 : v ≠ 12 := by omega
  rw [bmp_DecodeConfig_eq, hmagic, h14, h18, h22, hdrop, hlen,
    toInt32_pattern W hW1 hW2, toInt32_pattern H hH1 hH2, magnitude_eq_abs H hH1 hH2]
  have e1 : ¬ (26 + t.length < 18) := by omega
  have e2 : ¬ (26 + t.length < 26) := by omega
  simp [hv, hv12, e1, e2]

/-- Witness of C3: variant 40, W = -3 and H = -2^31. -/
theorem C3_bmp_32bit_variants_witness :
    bmp.DecodeConfig ([0x42, 0x4d] ++ List.replicate 12 7 ++ u32le 40 ++ i32le (-3)
        ++ i32le (-2 ^ 31) ++ [9])
      = { cfg := { ColorModel := .RGBAModel, Width := -3, Height := |(-2 ^ 31 : Int)| },
          err := none, rest := [9] } :=
  C3_bmp_32bit_variants 40 (by decide) (List.replicate 12 7) (by decide) (-3) (-2 ^ 31)
    (by decide) (by decide) (by decide) (by decide) [9]

/-- C4: for 0 ≤ W, H ≤ 65535, bmp.DecodeConfig on 'B','M', 12 arbitrary bytes, 12 as
little-endian u32, W and H as little-endian u16, then any bytes t, returns
Width = W, Height = H, ColorModel = RGBA and a nil error, and leaves t unread. -/
theorem C4_bmp_16bit_variant (mid : List Byte) (hmid : mid.length = 12) (W H : Nat)
    (hW : W ≤ 65535) (hH : H ≤ 65535) (t : List Byte) :
    bmp.DecodeConfig ([0x42, 0x4d] ++ mid ++ u32le 12 ++ u16le W ++ u16le H ++ t)
      = { cfg := { ColorModel := .RGBAModel, Width := (W : Nat), Height := (H : Nat) },
          err := none, rest := t } := by
  have hlen : ([0x42, 0x4d] ++ mid ++ u32le 12 ++ u16le W ++ u16le H ++ t).length
      = 22 + t.length := by
    simp [u32le, u16le, hmid]; omega
  have hmagic : ([0x42, 0x4d] ++ mid ++ u32le 12 ++ u16le W ++ u16le H ++ t).take 2
      = bmp.Header := by
    simp [bmp.Header]
  have h14 : leUint32 ([0x42, 0x4d] ++ mid ++ u32le 12 ++ u16le W ++ u16le H ++ t) 14 = 12 := by
    have := leUint32_at ([0x42, 0x4d] ++ mid) 12 (u16le W ++ (u16le H ++ t)) 14
      (by simp [hmid]) (by omega)
    simpa using this
  have h18 : leUint16 ([0x42, 0x4d] ++ mid ++ u32le 12 ++ u16le W ++ u16le H ++ t) 18 = W := by
    have := leUint16_at ([0x42, 0x4d] ++ mid ++ u32le 12) W (u16le H ++ t) 18
      (by simp [hmid, u32le]) (by omega)
    simpa using this
  have h20 : leUint16 ([0x42, 0x4d] ++ mid ++ u32le 12 ++ u16le W ++ u16le H ++ t) 20 = H := by
    have := leUint16_at ([0x42, 0x4d] ++ mid ++ u32le 12 ++ u16le W) H t 20
      (by simp [hmid, u32le, u16le]) (by omega)
    simpa using this
  have hdrop : ([0x42, 0x4d] ++ mid ++ u32le 12 ++ u16le W ++ u16le H ++ t).drop 22 = t :=
    List.drop_left' (by simp [hmid, u32le, u16le])
  rw [bmp_DecodeConfig_eq, hmagic, h14, h18, h20, hdrop, hlen]
  have e1 : ¬ (22 + t.length < 18) := by omega
  have e2 : ¬ (22 + t.length < 22) := by omega
  simp [e1, e2]

/-- Witness of C4: W = 0 and H = 65535. -/
theorem C4_bmp_16bit_variant_witness :
    bmp.DecodeConfig ([0x42, 0x4d] ++ List.replicate 12 7 ++ u32le 12 ++ u16le 0
        ++ u16le 65535 ++ [9, 9])
      = { cfg := { ColorModel := .RGBAModel, Width := 0, Height := 65535 },
          err := none, rest := [9, 9] } :=
  C4_bmp_16bit_variant (List.replicate 12 7) (by decide) 0 65535 (by decide) (by decide) [9, 9]

/-- C5, refuted as stated: a BMP of variant 40 whose width field is FF FF FF FF
and whose height field is 1 is decoded with a nil error and Width = -1. -/
theorem C5_counterexample :
    bmp.DecodeConfig ([0x42, 0x4d] ++ List.replicate 12 0
        ++ [40, 0, 0, 0, 0xff, 0xff, 0xff, 0xff, 1, 0, 0, 0])
      = { cfg := { ColorModel := .RGBAModel, Width := -1, Height := 1 },
          err := none, rest := [] }
    ∧ ¬ 0 ≤ (bmp.DecodeConfig ([0x42, 0x4d] ++ List.replicate 12 0
        ++ [40, 0, 0, 0, 0xff, 0xff, 0xff, 0xff, 1, 0, 0, 0])).cfg.Width := by
  decide

/-- C5, amended: for every byte stream the configuration returned by
bmp.DecodeConfig has Height ≥ 0, and Width ≥ 0 unless the stream is a BMP of a
32-bit variant (40, 56, 108, 124) whose width field has its sign bit set, where
Width is the negative value of that field; jpeg.DecodeConfig either panics or
returns a configuration with Width ≥ 0 and Height ≥ 0. -/
theorem C5_height_nonneg_width_as_encoded (s : List Byte) :
    (0 ≤ (bmp.DecodeConfig s).cfg.Height
      ∧ (0 ≤ (bmp.DecodeConfig s).cfg.Width
          ∨ ((leUint32 s 14 = 40 ∨ leUint32 s 14 = 56 ∨ leUint32 s 14 = 108
                ∨ leUint32 s 14 = 124)
              ∧ 2 ^ 31 ≤ leUint32 s 18
              ∧ (bmp.DecodeConfig s).cfg.Width = (leUint32 s 18 : Int) - 2 ^ 32)))
    ∧ (jpeg.DecodeConfig s = some .panic
        ∨ ∃ res, jpeg.DecodeConfig s = some (.ret res)
            ∧ 0 ≤ res.cfg.Width ∧ 0 ≤ res.cfg.Height) := by
  constructor
  · rw [bmp_DecodeConfig_eq]
    have hr := toInt32_range (leUint32 s 22) (leUint32_lt s 22)
    have hm := magnitude_nonneg _ hr.1 hr.2
    split
    · simp [initCfg]
    split
    · simp [initCfg]
    split
    · split
      · simp [initCfg]
      · exact ⟨Int.ofNat_nonneg _, Or.inl (Int.ofNat_nonneg _)⟩
    split
    · split
      · simp [initCfg]
      · rename_i h40 _
        refine ⟨hm, ?_⟩
        by_cases hs : leUint32 s 18 < 2 ^ 31
        · left
          simp only [toInt32, hs, if_true]
          exact Int.ofNat_nonneg _
        · right
          refine ⟨h40, by omega, ?_⟩
          simp only [toInt32, hs, if_false]
    · simp [initCfg]
  · obtain ⟨o, ho⟩ := jpeg.DecodeConfig_total s
    cases o with
    | panic => exact Or.inl ho
    | ret res => exact Or.inr ⟨res, ho, jpeg.DecodeConfig_dims_nonneg s res ho⟩

/-- C6: if bmp.DecodeConfig, or jpeg.DecodeConfig, returns a nil error on the
stream s and leaves rest unread (it consumed s.length - rest.length bytes), then
on every shorter cut s.take k, k less than the number of bytes consumed, the call
returns a non-nil error that is io.EOF or io.ErrUnexpectedEOF. -/
theorem C6_truncation_is_an_error (s : List Byte) :
    (∀ cfg rest, bmp.DecodeConfig s = { cfg := cfg, err := none, rest := rest } →
      ∀ k, k < s.length - rest.length →
        ∃ c e, bmp.DecodeConfig (s.take k) = { cfg := c, err := some e, rest := [] }
          ∧ (e = .EOF ∨ e = .ErrUnexpectedEOF))
    ∧ (∀ cfg rest, jpeg.DecodeConfig s = some (.ret { cfg := cfg, err := none, rest := rest }) →
      ∀ k, k < s.length - rest.length →
        ∃ c e, jpeg.DecodeConfig (s.take k)
            = some (.ret { cfg := c, err := some e, rest := [] })
          ∧ (e = .EOF ∨ e = .ErrUnexpectedEOF)) := by
  constructor
  · intro cfg rest h k hk
    obtain ⟨e, h1, h2⟩ := bmp_DecodeConfig_truncated s (by rw [h]) k (by rw [h]; simp; omega)
    exact ⟨initCfg, e, h1, h2⟩
  · intro cfg rest h k hk
    exact jpeg_DecodeConfig_truncated s _ h rfl k (by simp; omega)

/-- Witness of C6: a BMP of variant 12 (22 bytes consumed) cut to 21 bytes, and a
JPEG with one skipped segment and a start of frame (17 bytes consumed) cut behind
the empty payload of the skipped segment, to 6 bytes. -/
theorem C6_truncation_is_an_error_witness :
    (∃ c e, bmp.DecodeConfig
          (([0x42, 0x4d] ++ List.replicate 12 0 ++ [12, 0, 0, 0, 3, 0, 2, 0, 7]).take 21)
        = { cfg := c, err := some e, rest := [] } ∧ (e = .EOF ∨ e = .ErrUnexpectedEOF))
    ∧ (∃ c e, jpeg.DecodeConfig
          (([0xff, 0xd8, 0xff, 0xe0, 0, 2, 0xff, 0xc0, 0, 17, 8, 0, 2, 0, 3, 7, 7] :
            List Byte).take 6)
        = some (.ret { cfg := c, err := some e, rest := [] })
          ∧ (e = .EOF ∨ e = .ErrUnexpectedEOF)) :=
  ⟨(C6_truncation_is_an_error
      ([0x42, 0x4d] ++ List.replicate 12 0 ++ [12, 0, 0, 0, 3, 0, 2, 0, 7])).1
      { ColorModel := .RGBAModel, Width := 3, Height := 2 } [7] (by decide) 21 (by decide),
   (C6_truncation_is_an_error
      [0xff, 0xd8, 0xff, 0xe0, 0, 2, 0xff, 0xc0, 0, 17, 8, 0, 2, 0, 3, 7, 7]).2
      { ColorModel := .RGBAModel, Width := 3, Height := 2 } [7, 7] (by decide) 6 (by decide)⟩

/-- C7, refuted as stated: behind FF D8 and one skipped segment with an empty
payload a single byte 00 follows; the read of the 4-byte segment header comes up
short and the call fails with io.ErrUnexpectedEOF, not with ErrInvalid. -/
theorem C7_counterexample :
    jpeg.DecodeConfig (jpeg.Header ++ encodeSegments [⟨0xe0, []⟩] ++ [0x00])
      = some (.ret { cfg := { ColorModel := .RGBAModel, Width := 0, Height := 0 },
                     err := some .ErrUnexpectedEOF, rest := [] })
    ∧ ¬ ∃ c rest, jpeg.DecodeConfig (jpeg.Header ++ encodeSegments [⟨0xe0, []⟩] ++ [0x00])
      = some (.ret { cfg := c, err := some jpeg.ErrInvalid, rest := rest }) := by
  have h : jpeg.DecodeConfig (jpeg.Header ++ encodeSegments [⟨0xe0, []⟩] ++ [0x00])
      = some (.ret { cfg := { ColorModel := .RGBAModel, Width := 0, Height := 0 },
                     err := some .ErrUnexpectedEOF, rest := [] }) := by decide
  refine ⟨h, ?_⟩
  rintro ⟨c, rest, hr⟩
  rw [h] at hr
  simp [jpeg.ErrInvalid] at hr

/-- C7, amended: behind FF D8 and any run of skipped segments (each with its
declared length L ≥ 2 and its L - 2 payload bytes), a byte b other than FF
followed by the bytes t makes jpeg.DecodeConfig fail: with ErrInvalid when at least
four bytes are left (b and three of t, which are consumed), with
io.ErrUnexpectedEOF when only one to three bytes are left. -/
theorem C7_bad_sentinel_after_skip (segs : List Segment) (hsegs : ∀ sg ∈ segs, sg.Skipped)
    (b : Byte) (hb : b.val ≠ 0xff) (t : List Byte) :
    jpeg.DecodeConfig (jpeg.Header ++ encodeSegments segs ++ b :: t)
      = some (.ret { cfg := { ColorModel := .RGBAModel, Width := 0, Height := 0 },
                     err := some (if 3 ≤ t.length then jpeg.ErrInvalid
                                  else .ErrUnexpectedEOF),
                     rest := t.drop 3 }) := by
  rw [List.append_assoc]
  apply jpeg.DecodeConfig_after_segments segs hsegs
  intro bl
  by_cases h3 : 3 ≤ t.length
  · have h0 : byteAt (b :: t) 0 = b.val := rfl
    have hl : ¬ (t.length + 1 < 4) := by omega
    rw [jpeg.iteration_eq, h0]
    simp [hl, hb, h3, initCfg]
  · rw [jpeg.iteration_short initCfg bl (b :: t) (by simp; omega)]
    simp [h3, initCfg, shortErr]
    omega

/-- Witness of C7 (amended): two skipped segments, then 00 and three more bytes. -/
theorem C7_bad_sentinel_after_skip_witness :
    jpeg.DecodeConfig (jpeg.Header ++ encodeSegments [⟨0xe0, [1, 2]⟩, ⟨0xfe, []⟩]
        ++ 0x00 :: [0xc0, 0, 17, 8])
      = some (.ret { cfg := { ColorModel := .RGBAModel, Width := 0, Height := 0 },
                     err := some jpeg.ErrInvalid, rest := [8] }) :=
  C7_bad_sentinel_after_skip [⟨0xe0, [1, 2]⟩, ⟨0xfe, []⟩] (by decide) 0x00 (by decide)
    [0xc0, 0, 17, 8]

/-- C8: on a stream of at least 18 bytes that begins with 'B','M' and whose
little-endian u32 in bytes 14..17 is none of 12, 40, 56, 108, 124, bmp.DecodeConfig
fails with ErrInvalid and has consumed the 18 bytes of the header only. -/
theorem C8_unknown_variant_is_invalid (s : List Byte) (hlen : 18 ≤ s.length)
    (hmagic : s.take 2 = [0x42, 0x4d])
    (hv : ¬ (leUint32 s 14 = 12 ∨ leUint32 s 14 = 40 ∨ leUint32 s 14 = 56
              ∨ leUint32 s 14 = 108 ∨ leUint32 s 14 = 124)) :
    bmp.DecodeConfig s
      = { cfg := { ColorModel := .RGBAModel, Width := 0, Height := 0 },
          err := some bmp.ErrInvalid, rest := s.drop 18 } := by
  have h18 : ¬ s.length < 18 := by omega
  have h12 : ¬ leUint32 s 14 = 12 := fun h => hv (Or.inl h)
  have h40 : ¬ (leUint32 s 14 = 40 ∨ leUint32 s 14 = 56 ∨ leUint32 s 14 = 108
      ∨ leUint32 s 14 = 124) := fun h => hv (Or.inr h)
  have hm : s.take 2 = bmp.Header := hmagic
  rw [bmp_DecodeConfig_eq]
  simp only [h18, h12, h40, hm, if_false, ne_eq, not_true_eq_false, initCfg]

/-- Witness of C8: variant size 20, followed by four bytes that stay unread. -/
theorem C8_unknown_variant_is_invalid_witness :
    bmp.DecodeConfig ([0x42, 0x4d] ++ List.replicate 12 0 ++ [20, 0, 0, 0, 1, 0, 1, 0])
      = { cfg := { ColorModel := .RGBAModel, Width := 0, Height := 0 },
          err := some bmp.ErrInvalid, rest := [1, 0, 1, 0] } :=
  C8_unknown_variant_is_invalid
    ([0x42, 0x4d] ++ List.replicate 12 0 ++ [20, 0, 0, 0, 1, 0, 1, 0])
    (by decide) (by decide) (by decide)

/-- C9, the code where the claim fails: on a stream that does not begin with
'B','M' and is shorter than the 18 bytes of the fixed header, bmp.DecodeConfig
returns the error of the read of the header, io.EOF on the empty stream and
io.ErrUnexpectedEOF otherwise, and not ErrInvalid as its doc comment says; from
18 bytes on it returns ErrInvalid.  The sibling jpeg.DecodeConfig compares its
magic as soon as two bytes are read and returns its ErrInvalid on 'G','I','F'. -/
theorem C9_short_not_bmp_returns_read_error (s : List Byte)
    (hm : s.take 2 ≠ [0x42, 0x4d]) :
    (s.length < 18 →
      bmp.DecodeConfig s
        = { cfg := { ColorModel := .RGBAModel, Width := 0, Height := 0 },
            err := some (if s.length = 0 then .EOF else .ErrUnexpectedEOF), rest := [] })
    ∧ (18 ≤ s.length →
      bmp.DecodeConfig s
        = { cfg := { ColorModel := .RGBAModel, Width := 0, Height := 0 },
            err := some bmp.ErrInvalid, rest := s.drop 18 })
    ∧ jpeg.DecodeConfig [0x47, 0x49, 0x46]
        = some (.ret { cfg := { ColorModel := .RGBAModel, Width := 0, Height := 0 },
                       err := some jpeg.ErrInvalid, rest := [0x46] }) := by
  have hm2 : s.take 2 ≠ bmp.Header := hm
  refine ⟨?_, ?_, by decide⟩
  · intro h
    rw [bmp_DecodeConfig_eq]
    simp only [h, if_true, initCfg, shortErr]
  · intro h
    have h18 : ¬ s.length < 18 := by omega
    rw [bmp_DecodeConfig_eq]
    simp only [h18, hm2, if_false, if_true, ne_eq, not_false_eq_true, initCfg]

/-- Witness of C9: the three bytes 'G','I','F', on which bmp.DecodeConfig returns
io.ErrUnexpectedEOF. -/
theorem C9_short_not_bmp_returns_read_error_witness :
    bmp.DecodeConfig [0x47, 0x49, 0x46]
      = { cfg := { ColorModel := .RGBAModel, Width := 0, Height := 0 },
          err := some .ErrUnexpectedEOF, rest := [] } :=
  (C9_short_not_bmp_returns_read_error [0x47, 0x49, 0x46] (by decide)).1 (by decide)

/-- C10: on a stream of at least two bytes whose first two bytes are not FF D8,
jpeg.DecodeConfig fails with ErrInvalid and has consumed exactly those two bytes. -/
theorem C10_not_jpeg_is_invalid (s : List Byte) (hlen : 2 ≤ s.length)
    (hm : s.take 2 ≠ [0xff, 0xd8]) :
    jpeg.DecodeConfig s
      = some (.ret { cfg := { ColorModel := .RGBAModel, Width := 0, Height := 0 },
                     err := some jpeg.ErrInvalid, rest := s.drop 2 }) :=
  jpeg.DecodeConfig_badmagic s hlen hm

/-- Witness of C10: FF D9 followed by a well-formed start of frame. -/
theorem C10_not_jpeg_is_invalid_witness :
    jpeg.DecodeConfig [0xff, 0xd9, 0xff, 0xc0, 0, 17, 8, 0, 2, 0, 3]
      = some (.ret { cfg := { ColorModel := .RGBAModel, Width := 0, Height := 0 },
                     err := some jpeg.ErrInvalid,
                     rest := [0xff, 0xc0, 0, 17, 8, 0, 2, 0, 3] }) :=
  C10_not_jpeg_is_invalid [0xff, 0xd9, 0xff, 0xc0, 0, 17, 8, 0, 2, 0, 3] (by decide) (by decide)

/-! ## The loop of jpeg.DecodeConfig: panics, passes, errors, longer streams -/

theorem byteAt_append_left (a b : List Byte) (i : Nat) (h : i < a.length) :
    byteAt (a ++ b) i = byteAt a i := by
  unfold byteAt
  congr 1
  simp [List.getD_eq_getElem?_getD, List.getElem?_append_left h]

theorem beUint16_append_left (a b : List Byte) (off : Nat) (h : off + 2 ≤ a.length) :
    beUint16 (a ++ b) off = beUint16 a off := by
  unfold beUint16
  rw [byteAt_append_left a b off (by omega), byteAt_append_left a b (off + 1) (by omega)]

theorem drop_append_left (a b : List Byte) (n : Nat) (h : n ≤ a.length) :
    (a ++ b).drop n = a.drop n ++ b := by
  rw [List.drop_append_eq_append_drop]
  have : n - a.length = 0 := by omega
  simp [this]

namespace jpeg

/-- A segment header with a marker code other than C0, C1, C2 and a declared
length of 0 or 1 ends the pass in the panic of the slice expression. -/
theorem iteration_panic (cfg : Config) (bufLen : Nat) (m l : Byte) (hm : ¬ IsSOF m)
    (hl : l.val < 2) (t : List Byte) :
    iteration cfg bufLen (0xff :: m :: 0 :: l :: t) = .done .panic := by
  have h0 : byteAt (0xff :: m :: 0 :: l :: t) 0 = 0xff := rfl
  have h1 : byteAt (0xff :: m :: 0 :: l :: t) 1 = m.val := rfl
  have h2 : beUint16 (0xff :: m :: 0 :: l :: t) 2 = l.val := by
    show (0 : Nat) * 2 ^ 8 + l.val = l.val
    omega
  have hm1 : ¬ (m.val = 0xc0 ∨ m.val = 0xc1 ∨ m.val = 0xc2) := hm
  rw [iteration_eq, h0, h1, h2]
  simp [hm1, hl]

/-- The loop ends in some pass n, counted from 1, that is within the fuel. -/
theorem loop_passes (cfg : Config) :
    ∀ (f bufLen : Nat) (r : List Byte), r.length < 4 * f →
      ∃ n o, 1 ≤ n ∧ n ≤ f ∧ loop n cfg bufLen r = some o
        ∧ loop (n - 1) cfg bufLen r = none := by
  intro f
  induction f with
  | zero => intro bufLen r h; omega
  | succ f ih =>
    intro bufLen r h
    cases hit : iteration cfg bufLen r with
    | done o =>
      exact ⟨1, o, le_refl _, by omega, loop_done 0 cfg bufLen r o hit, by simp [loop]⟩
    | next b1 r1 =>
      have hl := iteration_next_length cfg bufLen r b1 r1 hit
      obtain ⟨n, o, h1, h2, h3, h4⟩ := ih b1 r1 (by omega)
      obtain ⟨k, rfl⟩ : ∃ k, n = k + 1 := ⟨n - 1, by omega⟩
      refine ⟨k + 1 + 1, o, by omega, by omega, ?_, ?_⟩
      · rw [loop_next (k + 1) cfg bufLen r b1 r1 hit]; exact h3
      · simp only [Nat.add_sub_cancel] at h4 ⊢
        rw [loop_next k cfg bufLen r b1 r1 hit]; exact h4

/-- A result the loop returns with a non-nil error carries the configuration the
loop was started with, or that configuration with both dimensions set to zero. -/
theorem loop_err_cfg (cfg : Config) :
    ∀ (f bufLen : Nat) (r : List Byte) (res : Result),
      loop f cfg bufLen r = some (.ret res) → res.err ≠ none →
        res.cfg = cfg ∨ res.cfg = { cfg with Width := 0, Height := 0 } := by
  intro f
  induction f with
  | zero => intro bufLen r res h; simp [loop] at h
  | succ f ih =>
    intro bufLen r res h he
    cases hit : iteration cfg bufLen r with
    | next b1 r1 =>
      rw [loop_next f cfg bufLen r b1 r1 hit] at h
      exact ih b1 r1 res h he
    | done o =>
      rw [loop_done f cfg bufLen r o hit] at h
      simp only [Option.some.injEq] at h
      subst h
      rw [iteration_eq] at hit
      split at hit
      · simp only [Step.done.injEq, Outcome.ret.injEq] at hit
        subst hit; exact Or.inl rfl
      split at hit
      · simp only [Step.done.injEq, Outcome.ret.injEq] at hit
        subst hit; exact Or.inl rfl
      split at hit
      · split at hit
        · simp only [Step.done.injEq, Outcome.ret.injEq] at hit
          subst hit; exact Or.inr rfl
        · simp only [Step.done.injEq, Outcome.ret.injEq] at hit
          subst hit; simp at he
      split at hit
      · simp at hit
      split at hit
      · simp only [Step.done.injEq, Outcome.ret.injEq] at hit
        subst hit; exact Or.inl rfl
      · simp at hit

theorem iteration_sof_ok (cfg : Config) (bufLen : Nat) (r : List Byte)
    (h9 : 9 ≤ r.length) (hs : byteAt r 0 = 0xff)
    (hm : byteAt r 1 = 0xc0 ∨ byteAt r 1 = 0xc1 ∨ byteAt r 1 = 0xc2) :
    iteration cfg bufLen r
      = .done (.ret { cfg := { cfg with Width := (beUint16 r 7 : Nat),
                                        Height := (beUint16 r 5 : Nat) },
                      err := none, rest := r.drop 9 }) := by
  have h4n : ¬ r.length < 4 := by omega
  have h9n : ¬ r.length < 9 := by omega
  rw [iteration_eq]; simp [h4n, hs, hm, h9n]

/-- Bytes behind the ones a successful run of the loop consumed stay unread and
do not change the result. -/
theorem loop_append (cfg : Config) (t : List Byte) :
    ∀ (f bufLen : Nat) (r : List Byte) (res : Result),
      loop f cfg bufLen r = some (.ret res) → res.err = none →
        loop f cfg bufLen (r ++ t)
          = some (.ret { cfg := res.cfg, err := none, rest := res.rest ++ t }) := by
  intro f
  induction f with
  | zero => intro bufLen r res h; simp [loop] at h
  | succ f ih =>
    intro bufLen r res h he
    cases hit : iteration cfg bufLen r with
    | done o =>
      rw [loop_done f cfg bufLen r o hit] at h
      simp only [Option.some.injEq] at h
      subst h
      obtain ⟨h9, hs, hm, hres⟩ := iteration_done_ok cfg bufLen r res hit he
      have hnew := iteration_sof_ok cfg bufLen (r ++ t) (by simp; omega)
        (by rw [byteAt_append_left r t 0 (by omega)]; exact hs)
        (by rw [byteAt_append_left r t 1 (by omega)]; exact hm)
      rw [beUint16_append_left r t 7 (by omega), beUint16_append_left r t 5 (by omega),
        drop_append_left r t 9 h9] at hnew
      rw [loop_done f cfg bufLen _ _ hnew, hres]
    | next b1 r1 =>
      rw [loop_next f cfg bufLen r b1 r1 hit] at h
      obtain ⟨hs, hm, hL, hlen, hr1⟩ := iteration_next_inv cfg bufLen r b1 r1 hit
      have hold := iteration_skip_ok cfg bufLen r (by omega) hs hm hL hlen
      rw [hit] at hold
      simp only [Step.next.injEq] at hold
      have hL2 : beUint16 (r ++ t) 2 = beUint16 r 2 := beUint16_append_left r t 2 (by omega)
      have hnew := iteration_skip_ok cfg bufLen (r ++ t) (by simp; omega)
        (by rw [byteAt_append_left r t 0 (by omega)]; exact hs)
        (by rw [byteAt_append_left r t 1 (by omega)]; exact hm)
        (by rw [hL2]; exact hL) (by rw [hL2]; simp; omega)
      rw [hL2, drop_append_left r t _ hlen, ← hold.1, ← hr1] at hnew
      rw [loop_next f cfg bufLen _ _ _ hnew]
      exact ih b1 r1 res h he

end jpeg

/-! ## Both parsers on an error and on a longer stream -/

theorem leUint32_append_left (a b : List Byte) (off : Nat) (h : off + 4 ≤ a.length) :
    leUint32 (a ++ b) off = leUint32 a off := by
  unfold leUint32
  rw [byteAt_append_left a b off (by omega), byteAt_append_left a b (off + 1) (by omega),
    byteAt_append_left a b (off + 2) (by omega), byteAt_append_left a b (off + 3) (by omega)]

theorem leUint16_append_left (a b : List Byte) (off : Nat) (h : off + 2 ≤ a.length) :
    leUint16 (a ++ b) off = leUint16 a off := by
  unfold leUint16
  rw [byteAt_append_left a b off (by omega), byteAt_append_left a b (off + 1) (by omega)]

theorem jpeg_DecodeConfig_err_cfg (s : List Byte) (res : Result)
    (h : jpeg.DecodeConfig s = some (.ret res)) (he : res.err ≠ none) :
    res.cfg = initCfg := by
  rcases jpeg.DecodeConfig_cases s with h2 | ⟨h2, hm⟩ | h2
  · rw [jpeg.DecodeConfig_short s h2] at h
    simp only [Option.some.injEq, Outcome.ret.injEq] at h
    subst h; rfl
  · rw [jpeg.DecodeConfig_badmagic s h2 hm] at h
    simp only [Option.some.injEq, Outcome.ret.injEq] at h
    subst h; rfl
  · rw [h2, jpeg.DecodeConfig_magic] at h
    rcases jpeg.loop_err_cfg initCfg _ 0 _ res h he with h3 | h3
    · exact h3
    · rw [h3]; rfl

theorem bmp_DecodeConfig_err_cfg (s : List Byte) (he : (bmp.DecodeConfig s).err ≠ none) :
    (bmp.DecodeConfig s).cfg = initCfg := by
  rw [bmp_DecodeConfig_eq] at he ⊢
  split
  · rfl
  split
  · rfl
  split
  · split
    · rfl
    · rename_i h18 hm h12 h22
      simp [h18, hm, h12, h22] at he
  split
  · split
    · rfl
    · rename_i h18 hm h12 h40 h26
      simp [h18, hm, h12, h40, h26] at he
  · rfl

theorem jpeg_DecodeConfig_append (s t : List Byte) (res : Result)
    (h : jpeg.DecodeConfig s = some (.ret res)) (he : res.err = none) :
    jpeg.DecodeConfig (s ++ t)
      = some (.ret { cfg := res.cfg, err := none, rest := res.rest ++ t }) := by
  rcases jpeg.DecodeConfig_cases s with h2 | ⟨h2, hm⟩ | h2
  · rw [jpeg.DecodeConfig_short s h2] at h
    simp only [Option.some.injEq, Outcome.ret.injEq] at h
    subst h; simp at he
  · rw [jpeg.DecodeConfig_badmagic s h2 hm] at h
    simp only [Option.some.injEq, Outcome.ret.injEq] at h
    subst h; simp [jpeg.ErrInvalid] at he
  · rw [h2, jpeg.DecodeConfig_magic] at h
    have hst : s ++ t = jpeg.Header ++ (s.drop 2 ++ t) := by
      conv_lhs => rw [h2]
      rw [List.append_assoc]
    rw [hst]
    exact jpeg.DecodeConfig_of_loop _ _ _ (jpeg.loop_append initCfg t _ 0 _ res h he)

theorem bmp_DecodeConfig_append (s t : List Byte) (he : (bmp.DecodeConfig s).err = none) :
    bmp.DecodeConfig (s ++ t)
      = { cfg := (bmp.DecodeConfig s).cfg, err := none,
          rest := (bmp.DecodeConfig s).rest ++ t } := by
  rw [bmp_DecodeConfig_eq s] at he ⊢
  rw [bmp_DecodeConfig_eq (s ++ t)]
  split at he
  · simp at he
  split at he
  · simp [bmp.ErrInvalid] at he
  rename_i h18 hm
  have hl18 : ¬ (s ++ t).length < 18 := by simp; omega
  have hmg : (s ++ t).take 2 = s.take 2 := List.take_append_of_le_length (by omega)
  have hdb : leUint32 (s ++ t) 14 = leUint32 s 14 := leUint32_append_left s t 14 (by omega)
  simp only [h18, hm, hl18, hmg, hdb, if_false]
  split at he
  · rename_i h12
    simp only [h12, if_true]
    split at he
    · simp at he
    · rename_i h22
      have hl22 : ¬ (s ++ t).length < 22 := by simp; omega
      simp only [h22, hl22, if_false]
      rw [leUint16_append_left s t 18 (by omega), leUint16_append_left s t 20 (by omega),
        drop_append_left s t 22 (by omega)]
  rename_i h12
  simp only [h12, if_false]
  split at he
  · rename_i h40
    simp only [h40, if_true]
    split at he
    · simp at he
    · rename_i h26
      have hl26 : ¬ (s ++ t).length < 26 := by simp; omega
      simp only [h26, hl26, if_false]
      rw [leUint32_append_left s t 18 (by omega), leUint32_append_left s t 22 (by omega),
        drop_append_left s t 26 (by omega)]
  · simp [bmp.ErrInvalid] at he

/-! ## Claims on the full decode, the registry and the behaviour of the parsers -/

/-- C11, the code where the claim fails: whatever the native decoder is, bmp.Decode
panics on an empty reader (the expression &b[0]) and on every non-empty content
the native decoder accepts (the expression *channelsInFile on the nil pointer that
Decode passes); only content the decoder rejects gets a return, of the nil image
and the failure reason.  So bmp.Decode never returns an image. -/
theorem C11_bmp_Decode_panics_on_accepted_content (native : NativeDecoder) :
    bmp.Decode native [] = .panic
    ∧ (∀ (b : List Byte) (d : Decoded), b ≠ [] → native b 4 = .ok d →
        bmp.Decode native b = .panic)
    ∧ (∀ (b : List Byte) (msg : String), b ≠ [] → native b 4 = .error msg →
        bmp.Decode native b = .ret none (some msg)) := by
  refine ⟨rfl, ?_, ?_⟩
  · intro b d hb hn
    cases b with
    | nil => exact absurd rfl hb
    | cons a l => simp [bmp.Decode, LoadReader, LoadMemory, hn]
  · intro b msg hb hn
    cases b with
    | nil => exact absurd rfl hb
    | cons a l => simp [bmp.Decode, LoadReader, LoadMemory, hn]

/-- Witness of C11: the 58 bytes of a 1 by 1 BMP of 24 bits per pixel, with a
native decoder that accepts them as 1 by 1 with 3 channels in the file. -/
theorem C11_bmp_Decode_panics_on_accepted_content_witness :
    bmp.Decode (fun _ _ => .ok { x := 1, y := 1, comp := 3, data := fun _ => 0 })
        [0x42, 0x4d, 0x3a, 0, 0, 0, 0, 0, 0, 0, 0x36, 0, 0, 0,
         0x28, 0, 0, 0, 1, 0, 0, 0, 1, 0, 0, 0, 1, 0, 0x18, 0, 0, 0, 0, 0, 4, 0, 0, 0,
         0x13, 0x0b, 0, 0, 0x13, 0x0b, 0, 0, 0, 0, 0, 0, 0, 0, 0, 0, 0xff, 0, 0, 0]
      = .panic :=
  (C11_bmp_Decode_panics_on_accepted_content
      (fun _ _ => .ok { x := 1, y := 1, comp := 3, data := fun _ => 0 })).2.1
    _ { x := 1, y := 1, comp := 3, data := fun _ => 0 } (by simp) rfl

/-- C12: with the two entries the repository registers, in either order of
registration, DecodeConfig of the registry gives the result of bmp.DecodeConfig on
the whole stream when the stream begins with 'B','M', the result of
jpeg.DecodeConfig on the whole stream when it begins with FF D8, and fails with
ErrUnrecognizedFormat when the first two bytes are neither. -/
theorem C12_registry_dispatches_on_magic (reg : List registry.FormatEntry)
    (hreg : reg = registry.Register (registry.Register [] registry.bmpEntry) registry.jpegEntry
      ∨ reg = registry.Register (registry.Register [] registry.jpegEntry) registry.bmpEntry)
    (s : List Byte) :
    (s.take 2 = [0x42, 0x4d] →
      registry.DecodeConfig reg s = .ok (some (.ret (bmp.DecodeConfig s))))
    ∧ (s.take 2 = [0xff, 0xd8] →
      registry.DecodeConfig reg s = .ok (jpeg.DecodeConfig s))
    ∧ (2 ≤ s.length → s.take 2 ≠ [0x42, 0x4d] → s.take 2 ≠ [0xff, 0xd8] →
      registry.DecodeConfig reg s = .error .ErrUnrecognizedFormat) := by
  have hne : ([0x42, 0x4d] : List Byte) ≠ [0xff, 0xd8] := by decide
  refine ⟨?_, ?_, ?_⟩
  · intro h
    have h2 : ¬ s.take 2 = [0xff, 0xd8] := by rw [h]; exact hne
    rcases hreg with rfl | rfl <;>
      simp [registry.DecodeConfig, registry.Sniff, registry.Register, registry.hasMagic,
        registry.bmpEntry, registry.jpegEntry, bmp.Header, jpeg.Header, List.find?, h, h2]
  · intro h
    have h2 : ¬ s.take 2 = [0x42, 0x4d] := by rw [h]; exact fun e => hne e.symm
    rcases hreg with rfl | rfl <;>
      simp [registry.DecodeConfig, registry.Sniff, registry.Register, registry.hasMagic,
        registry.bmpEntry, registry.jpegEntry, bmp.Header, jpeg.Header, List.find?, h, h2]
  · intro hlen h1 h2
    have hl : ¬ s.length < 2 := by omega
    rcases hreg with rfl | rfl <;>
      simp [registry.DecodeConfig, registry.Sniff, registry.Register, registry.hasMagic,
        registry.bmpEntry, registry.jpegEntry, bmp.Header, jpeg.Header, List.find?, h1, h2, hl]

/-- Witness of C12: bmp registered first, and a stream that begins with FF D8 and
holds a start of frame. -/
theorem C12_registry_dispatches_on_magic_witness :
    registry.DecodeConfig
        (registry.Register (registry.Register [] registry.bmpEntry) registry.jpegEntry)
        [0xff, 0xd8, 0xff, 0xc0, 0, 17, 8, 0, 2, 0, 3]
      = .ok (jpeg.DecodeConfig [0xff, 0xd8, 0xff, 0xc0, 0, 17, 8, 0, 2, 0, 3]) :=
  (C12_registry_dispatches_on_magic _ (Or.inl rfl)
    [0xff, 0xd8, 0xff, 0xc0, 0, 17, 8, 0, 2, 0, 3]).2.1 (by decide)

/-- C13, the code where the claim fails: behind FF D8 and any run of skipped
segments, a segment header with a marker code other than C0, C1, C2 and a declared
length of 0 or 1 makes jpeg.DecodeConfig panic, whatever follows: the slice
expression buf[:L-2] has a negative bound. -/
theorem C13_declared_length_below_2_panics (segs : List Segment)
    (hsegs : ∀ sg ∈ segs, sg.Skipped) (m l : Byte) (hm : ¬ IsSOF m) (hl : l.val < 2)
    (t : List Byte) :
    jpeg.DecodeConfig (jpeg.Header ++ encodeSegments segs ++ 0xff :: m :: 0 :: l :: t)
      = some .panic := by
  rw [List.append_assoc]
  exact jpeg.DecodeConfig_after_segments segs hsegs _ _
    (fun b => jpeg.iteration_panic initCfg b m l hm hl t)

/-- Witness of C13: the six bytes FF D8 FF E0 00 00. -/
theorem C13_declared_length_below_2_panics_witness :
    jpeg.DecodeConfig (jpeg.Header ++ encodeSegments [] ++ 0xff :: 0xe0 :: 0 :: 0 :: [])
      = some .panic :=
  C13_declared_length_below_2_panics [] (by decide) 0xe0 0 (by decide) (by decide) []

/-- C14, what holds and where the claim fails: jpeg.DecodeConfig comes to an end on
every stream; behind the magic the loop ends in a pass n with
1 ≤ n ≤ (len - 2) / 4 + 1; a pass that goes round again has consumed at least
4 bytes.  But the loop can end in a third way: on FF D8, a segment of declared
length 2, a segment header of declared length 1 and a start of frame, the second
pass panics. -/
theorem C14_loop_ends_within_bound_or_panics :
    (∀ s : List Byte, ∃ o, jpeg.DecodeConfig s = some o)
    ∧ (∀ t : List Byte, ∃ n o, 1 ≤ n ∧ n ≤ ((jpeg.Header ++ t).length - 2) / 4 + 1
        ∧ jpeg.loop n initCfg 0 t = some o ∧ jpeg.loop (n - 1) initCfg 0 t = none
        ∧ jpeg.DecodeConfig (jpeg.Header ++ t) = some o)
    ∧ (∀ (cfg : Config) (bufLen : Nat) (r : List Byte) (b1 : Nat) (r1 : List Byte),
        jpeg.iteration cfg bufLen r = .next b1 r1 → r1.length + 4 ≤ r.length)
    ∧ jpeg.loop 1 initCfg 0
        [0xff, 0xe0, 0, 2, 0xff, 0xfe, 0, 1, 0xff, 0xc0, 0, 17, 8, 0, 2, 0, 3] = none
    ∧ jpeg.loop 2 initCfg 0
        [0xff, 0xe0, 0, 2, 0xff, 0xfe, 0, 1, 0xff, 0xc0, 0, 17, 8, 0, 2, 0, 3] = some .panic
    ∧ jpeg.DecodeConfig
        [0xff, 0xd8, 0xff, 0xe0, 0, 2, 0xff, 0xfe, 0, 1, 0xff, 0xc0, 0, 17, 8, 0, 2, 0, 3]
      = some .panic := by
  refine ⟨jpeg.DecodeConfig_total, ?_, jpeg.iteration_next_length, by decide, by decide,
    by decide⟩
  intro t
  obtain ⟨n, o, h1, h2, h3, h4⟩ := jpeg.loop_passes initCfg (t.length / 4 + 1) 0 t (by omega)
  refine ⟨n, o, h1, ?_, h3, h4, jpeg.DecodeConfig_of_loop n t o h3⟩
  simpa [jpeg.Header] using h2

/-- Witness of C14: a pass over a segment of declared length 2 leaves the 2 bytes
behind its 4-byte header. -/
theorem C14_loop_ends_within_bound_or_panics_witness :
    ([1, 1] : List Byte).length + 4 ≤ ([0xff, 0xe0, 0, 2, 1, 1] : List Byte).length :=
  C14_loop_ends_within_bound_or_panics.2.2.1 initCfg 0 [0xff, 0xe0, 0, 2, 1, 1] 2 [1, 1]
    (by decide)

/-- C15: whenever bmp.DecodeConfig, or jpeg.DecodeConfig, returns a non-nil error,
the configuration it returns with it has Width = 0, Height = 0 and
ColorModel = RGBA. -/
theorem C15_no_partial_result_on_error (s : List Byte) :
    ((bmp.DecodeConfig s).err ≠ none →
      (bmp.DecodeConfig s).cfg = { ColorModel := .RGBAModel, Width := 0, Height := 0 })
    ∧ (∀ res, jpeg.DecodeConfig s = some (.ret res) → res.err ≠ none →
      res.cfg = { ColorModel := .RGBAModel, Width := 0, Height := 0 }) :=
  ⟨bmp_DecodeConfig_err_cfg s, fun res h he => jpeg_DecodeConfig_err_cfg s res h he⟩

/-- Witness of C15: a BMP of variant 40 cut in the middle of its height field, and
a JPEG cut in the middle of the dimension fields of its start of frame. -/
theorem C15_no_partial_result_on_error_witness :
    (bmp.DecodeConfig ([0x42, 0x4d] ++ List.replicate 12 0
        ++ [40, 0, 0, 0, 3, 0, 0, 0, 2, 0])).cfg
      = { ColorModel := .RGBAModel, Width := 0, Height := 0 }
    ∧ jpeg.DecodeConfig [0xff, 0xd8, 0xff, 0xc0, 0, 17, 8, 0, 2, 0]
      = some (.ret { cfg := initCfg, err := some .ErrUnexpectedEOF, rest := [] })
    ∧ initCfg = { ColorModel := .RGBAModel, Width := 0, Height := 0 } :=
  ⟨(C15_no_partial_result_on_error ([0x42, 0x4d] ++ List.replicate 12 0
        ++ [40, 0, 0, 0, 3, 0, 0, 0, 2, 0])).1 (by decide),
   by decide,
   (C15_no_partial_result_on_error [0xff, 0xd8, 0xff, 0xc0, 0, 17, 8, 0, 2, 0]).2
      { cfg := initCfg, err := some .ErrUnexpectedEOF, rest := [] } (by decide) (by decide)⟩

/-- C16: if bmp.DecodeConfig, or jpeg.DecodeConfig, returns the configuration c with
a nil error on the stream s and leaves rest unread, then on s followed by any
bytes t it returns the same c with a nil error and leaves rest followed by t
unread. -/
theorem C16_result_depends_on_consumed_bytes (s t : List Byte) :
    (∀ c rest, bmp.DecodeConfig s = { cfg := c, err := none, rest := rest } →
      bmp.DecodeConfig (s ++ t) = { cfg := c, err := none, rest := rest ++ t })
    ∧ (∀ c rest, jpeg.DecodeConfig s = some (.ret { cfg := c, err := none, rest := rest }) →
      jpeg.DecodeConfig (s ++ t)
        = some (.ret { cfg := c, err := none, rest := rest ++ t })) := by
  constructor
  · intro c rest h
    have := bmp_DecodeConfig_append s t (by rw [h])
    rw [h] at this
    exact this
  · intro c rest h
    exact jpeg_DecodeConfig_append s t _ h rfl

/-- Witness of C16: a BMP of variant 12 followed by two more bytes, and a JPEG
followed by a second start of frame with other dimensions. -/
theorem C16_result_depends_on_consumed_bytes_witness :
    bmp.DecodeConfig (([0x42, 0x4d] ++ List.replicate 12 0 ++ [12, 0, 0, 0, 3, 0, 2, 0])
        ++ [9, 9])
      = { cfg := { ColorModel := .RGBAModel, Width := 3, Height := 2 }, err := none,
          rest := [] ++ [9, 9] }
    ∧ jpeg.DecodeConfig ([0xff, 0xd8, 0xff, 0xc0, 0, 17, 8, 0, 2, 0, 3]
        ++ [0xff, 0xc0, 0, 17, 8, 0, 7, 0, 7])
      = some (.ret { cfg := { ColorModel := .RGBAModel, Width := 3, Height := 2 },
                     err := none, rest := [] ++ [0xff, 0xc0, 0, 17, 8, 0, 7, 0, 7] }) :=
  ⟨(C16_result_depends_on_consumed_bytes
      ([0x42, 0x4d] ++ List.replicate 12 0 ++ [12, 0, 0, 0, 3, 0, 2, 0]) [9, 9]).1
      { ColorModel := .RGBAModel, Width := 3, Height := 2 } [] (by decide),
   (C16_result_depends_on_consumed_bytes [0xff, 0xd8, 0xff, 0xc0, 0, 17, 8, 0, 2, 0, 3]
      [0xff, 0xc0, 0, 17, 8, 0, 7, 0, 7]).2
      { ColorModel := .RGBAModel, Width := 3, Height := 2 } [] (by decide)⟩

/-- C17, the code where the claim fails: on a non-empty input the native decoder
accepts with non-negative x and y, called with a non-nil channelsInFile,
LoadMemory returns an image with Rect = (0,0)-(x,y), with Stride = 4 whatever x
is, and with len(Pix) = y * x * c for the channel count c in the file (as long
as the products fit the C int), not 4 * x * y. -/
theorem C17_LoadMemory_stride_4_pix_by_file_channels (native : NativeDecoder)
    (b : List Byte) (v : Int) (d : Decoded) (hb : b ≠ []) (hn : native b 4 = .ok d)
    (hx : 0 ≤ d.x) (hy : 0 ≤ d.y)
    (h1 : 0 ≤ d.y * d.x ∧ d.y * d.x < 2 ^ 31)
    (h2 : 0 ≤ d.y * d.x * d.comp ∧ d.y * d.x * d.comp < 2 ^ 31) :
    ∃ pix, LoadMemory native b (some v) 4
        = .ret (some { Pix := pix, Stride := 4,
                       Rect := { Min := { X := 0, Y := 0 }, Max := { X := d.x, Y := d.y } } })
            none
      ∧ (pix.length : Int) = d.y * d.x * d.comp := by
  have hw1 : wrapCInt (d.y * d.x) = d.y * d.x := by
    unfold wrapCInt
    generalize d.y * d.x = p at h1
    omega
  have hw2 : wrapCInt (d.y * d.x * d.comp) = d.y * d.x * d.comp := by
    unfold wrapCInt
    generalize d.y * d.x * d.comp = q at h2
    omega
  have hrect : Rect 0 0 d.x d.y
      = { Min := { X := 0, Y := 0 }, Max := { X := d.x, Y := d.y } } := by
    have e1 : ¬ (0 > d.x) := by omega
    have e2 : ¬ (0 > d.y) := by omega
    simp [Rect, e1, e2]
  have hneg : ¬ d.y * d.x * d.comp < 0 := by omega
  cases b with
  | nil => exact absurd rfl hb
  | cons a l =>
    refine ⟨(List.range (d.y * d.x * d.comp).toNat).map d.data, ?_, ?_⟩
    · simp [LoadMemory, hn, GoBytes, hw1, hw2, hrect, hneg]
    · simp only [List.length_map, List.length_range]
      exact Int.toNat_of_nonneg h2.1

/-- Witness of C17: the 62 bytes of a 2 by 1 BMP of 24 bits per pixel, with a
native decoder that accepts them as 2 by 1 with 3 channels in the file: Stride is
4, not 8, and Pix has 6 bytes, not 8. -/
theorem C17_LoadMemory_stride_4_pix_by_file_channels_witness :
    ∃ pix, LoadMemory (fun _ _ => .ok { x := 2, y := 1, comp := 3, data := fun _ => 0 })
        [0x42, 0x4d, 0x3e, 0, 0, 0, 0, 0, 0, 0, 0x36, 0, 0, 0,
         0x28, 0, 0, 0, 2, 0, 0, 0, 1, 0, 0, 0, 1, 0, 0x18, 0, 0, 0, 0, 0, 8, 0, 0, 0,
         0x13, 0x0b, 0, 0, 0x13, 0x0b, 0, 0, 0, 0, 0, 0, 0, 0, 0, 0,
         0xff, 0, 0, 0, 0xff, 0, 0, 0]
        (some 0) 4
        = .ret (some { Pix := pix, Stride := 4,
                       Rect := { Min := { X := 0, Y := 0 }, Max := { X := 2, Y := 1 } } })
            none
      ∧ (pix.length : Int) = 1 * 2 * 3 :=
  C17_LoadMemory_stride_4_pix_by_file_channels
    (fun _ _ => .ok { x := 2, y := 1, comp := 3, data := fun _ => 0 }) _ 0
    { x := 2, y := 1, comp := 3, data := fun _ => 0 } (by simp) rfl
    (by decide) (by decide) (by decide) (by decide)

end stbi
